import Mathlib

/-!
Shallow embedding of `pystruct/models/typed_crf.py` (class `TypedCRF`):
the type schema built by `TypedCRF.__init__`, the derived offset tables,
the instance validator `_check_size_x`, the label validator
`_check_size_xy`, and the unary-potential computer `_get_unary_potentials`.

Numeric values (numpy floats) are modelled as rationals; labels and edge
endpoints as integers; sizes and offsets as naturals.  A numpy 2-D array
is modelled by `Arr2`: a rectangular list of rows together with an explicit
column count (numpy arrays are rectangular by construction, and an empty
`(0, k)` array still knows its column count `k`).  Each `raise` site of the
source becomes one constructor of `CheckErr`; `CheckErr.exc` recovers the
Python exception class raised there.
-/

namespace TypedCrf

/-- A numpy 2-D array over `α`: rows plus an explicit column count.
`wf` records numpy's rectangularity. -/
structure Arr2 (α : Type) where
  rows : List (List α)
  ncols : ℕ
  wf : ∀ r ∈ rows, r.length = ncols

/-- Python exception classes appearing in `typed_crf.py` (plus those raised
by numpy primitives it calls). -/
inductive PyExc where
  | valueError
  | typeError
  | inconsistentLabel
  | attributeError
  | assertionError
  | indexError
deriving DecidableEq

/-- One constructor per `raise` site (or per raising library call) reachable
in the modelled fragment of `typed_crf.py`. -/
inductive CheckErr where
  /-- `__init__` line 56: `len(l_n_states) != n_types` (ValueError). -/
  | badStatesLen
  /-- `__init__` line 58: `l_n_features` given with wrong length (ValueError). -/
  | badFeaturesLen
  /-- `__init__` line 64: `sum(None)` when `l_n_features is None` (TypeError). -/
  | sumNoneFeatures
  /-- `__init__` line 75: `len(l_class_weight) != n_types` (ValueError). -/
  | badClassWeightLen
  /-- `__init__` line 78: class-weight vector of type `typ` has wrong length (ValueError). -/
  | badClassWeightStates (typ : ℕ)
  /-- `__init__` line 85: `np.hstack([])` on an empty list (ValueError). -/
  | hstackEmpty
  /-- `_check_size_x` line 160: `None.shape` when node-feature slot `typ` is None
  (AttributeError). -/
  | noneNodeFeatures (typ : ℕ)
  /-- `_check_size_x` line 156: wrong number of node-feature arrays (ValueError). -/
  | badNodeFeatureCount
  /-- `_check_size_x` line 160: wrong feature count for type `typ` (ValueError). -/
  | badFeatureDim (typ : ℕ)
  /-- `_check_size_x` lines 167-170: an edge array that is not a two-column
  2-D array (ValueError). -/
  | badEdgeCols
  /-- list indexing out of range, e.g. `x[1][typ1*n_types+typ2]` in
  `_get_edges_by_type` (IndexError). -/
  | indexOut
  /-- `_check_size_x` line 178: some edge endpoint of pair `(t1, t2)` is negative
  (ValueError). -/
  | negativeEdgeIndex (t1 t2 : ℕ)
  /-- `_check_size_x` line 180: an edge of pair `(t1, t2)` starts from a
  non-existing node (ValueError). -/
  | danglingSource (t1 t2 : ℕ)
  /-- `_check_size_x` line 182: an edge of pair `(t1, t2)` points to a
  non-existing node (ValueError). -/
  | danglingTarget (t1 t2 : ℕ)
  /-- `_check_size_xy` line 193: wrong number of labels (ValueError). -/
  | badLabelCount
  /-- `_check_size_xy` line 200: `np.min` of the empty label run of type `typ`
  (ValueError raised by numpy). -/
  | emptyLabelRun (typ : ℕ)
  /-- `_check_size_xy` line 200: negative label in the run of type `typ` (ValueError). -/
  | negativeLabel (typ : ℕ)
  /-- `_check_size_xy` line 204: a label below the range of type `typ`
  (InconsistentLabel). -/
  | labelBelowRange (typ : ℕ)
  /-- `_check_size_xy` line 205: a label at or above the end of the range of type
  `typ` (InconsistentLabel). -/
  | labelAboveRange (typ : ℕ)
  /-- `_get_unary_potentials` line 274: `assert i_w == self.size_unaries`
  (AssertionError). -/
  | sizeAssert
  /-- `_check_size_w` (in the base class, not part of the given sources).
  Modelled from the spec: weight-vector length differs from `size_unary_weights`. -/
  | badWeightLen
deriving DecidableEq

/-- The Python exception class raised at each site. -/
def CheckErr.exc : CheckErr → PyExc
  | .badStatesLen => .valueError
  | .badFeaturesLen => .valueError
  | .sumNoneFeatures => .typeError
  | .badClassWeightLen => .valueError
  | .badClassWeightStates _ => .valueError
  | .hstackEmpty => .valueError
  | .noneNodeFeatures _ => .attributeError
  | .badNodeFeatureCount => .valueError
  | .badFeatureDim _ => .valueError
  | .badEdgeCols => .valueError
  | .indexOut => .indexError
  | .negativeEdgeIndex _ _ => .valueError
  | .danglingSource _ _ => .valueError
  | .danglingTarget _ _ => .valueError
  | .badLabelCount => .valueError
  | .emptyLabelRun _ => .valueError
  | .negativeLabel _ => .valueError
  | .labelBelowRange _ => .inconsistentLabel
  | .labelAboveRange _ => .inconsistentLabel
  | .sizeAssert => .assertionError
  | .badWeightLen => .valueError

/-- The schema data stored by `TypedCRF.__init__` (inference settings, which
play no role in the modelled fragment, are omitted).  `l_class_weight` is the
resolved per-type list (after defaulting). -/
structure TypedCRF where
  n_types : ℕ
  l_n_states : List ℕ
  l_n_features : List ℕ
  l_class_weight : List (List ℚ)

/-- `self._n_states = sum(l_n_states)`. -/
def TypedCRF.nStates (m : TypedCRF) : ℕ := m.l_n_states.sum

/-- `self._n_features = sum(self.l_n_features)`. -/
def TypedCRF.nFeatures (m : TypedCRF) : ℕ := m.l_n_features.sum

/-- `self.l_n_edge_states = [n1*n2 for n1 in l_n_states for n2 in l_n_states]`. -/
def TypedCRF.l_n_edge_states (m : TypedCRF) : List ℕ :=
  (m.l_n_states.map (fun n1 => m.l_n_states.map (fun n2 => n1 * n2))).flatten

/-- `self.size_unaries = sum(n_states*n_features for ... in zip(l_n_states, l_n_features))`
(from `_set_size_joint_feature`; `size_joint_feature` equals it). -/
def TypedCRF.size_unaries (m : TypedCRF) : ℕ :=
  (List.zipWith (fun a b => a * b) m.l_n_states m.l_n_features).sum

/-- `self._l_type_startindex[i] = sum(l_n_states[:i])` for `i in range(n_types+1)`. -/
def TypedCRF.typeStart (m : TypedCRF) (i : ℕ) : ℕ := (m.l_n_states.take i).sum

/-- `self.class_weight = np.hstack(self.l_class_weight)`. -/
def TypedCRF.class_weight (m : TypedCRF) : List ℚ := m.l_class_weight.flatten

/-- Per-type class-weight check of `__init__` lines 77-79: index of the first
type whose supplied class-weight vector has the wrong length, if any. -/
def classWeightCheck (l_n_states : List ℕ) (lcw : List (List ℚ)) (i : ℕ) : Option ℕ :=
  match l_n_states, lcw with
  | [], _ => none
  | _, [] => none
  | n :: ns, c :: cs =>
      if c.length ≠ n then some i else classWeightCheck ns cs (i + 1)

/-- Class-weight resolution of `__init__` lines 74-84.  Python's `if l_class_weight:`
is falsy both for `None` and for an empty list, so both take the all-ones default. -/
def resolveClassWeight (n_types : ℕ) (l_n_states : List ℕ) :
    Option (List (List ℚ)) → Except CheckErr (List (List ℚ))
  | none => .ok (l_n_states.map fun n => List.replicate n 1)
  | some [] => .ok (l_n_states.map fun n => List.replicate n 1)
  | some (c :: cs) =>
      if (c :: cs).length ≠ n_types then .error .badClassWeightLen
      else
        match classWeightCheck l_n_states (c :: cs) 0 with
        | some i => .error (.badClassWeightStates i)
        | none => .ok (c :: cs)

/-- `TypedCRF.__init__` (the schema-building part).  Checks happen in source
order: states length (line 56), features length when given (line 58),
`sum(l_n_features)` which raises TypeError on `None` (line 64), class-weight
resolution (lines 74-84), and `np.hstack` which raises on an empty argument
list (line 85). -/
def init (n_types : ℕ) (l_n_states : List ℕ) (l_n_features : Option (List ℕ))
    (l_class_weight : Option (List (List ℚ))) : Except CheckErr TypedCRF :=
  if l_n_states.length ≠ n_types then .error .badStatesLen
  else
    match l_n_features with
    | none =>
        -- line 58's length check is skipped for None; line 64's `sum(None)` raises
        .error .sumNoneFeatures
    | some fl =>
        if fl.length ≠ n_types then .error .badFeaturesLen
        else
          match resolveClassWeight n_types l_n_states l_class_weight with
          | .error e => .error e
          | .ok lcw =>
              if lcw.isEmpty then .error .hstackEmpty
              else .ok ⟨n_types, l_n_states, fl, lcw⟩

/-- Schema consistency guaranteed by a successful `init`: the two per-type
lists have length `n_types`. -/
def validSchema (m : TypedCRF) : Prop :=
  m.l_n_states.length = m.n_types ∧ m.l_n_features.length = m.n_types

instance (m : TypedCRF) : Decidable (validSchema m) := by
  unfold validSchema; infer_instance

/-- A typed graph instance `x = (node_features, edges)`: one optional
node-feature array per type, and `n_types * n_types` optional edge arrays
(`None` meaning no edges of that pair). -/
structure Instance where
  nodeFeatures : List (Option (Arr2 ℚ))
  edges : List (Option (Arr2 ℤ))

/-- `_get_node_features(x, bClean=True)`: `None` slots become empty arrays of
the declared width. -/
def getNodeFeaturesClean (m : TypedCRF) (x : Instance) : List (Arr2 ℚ) :=
  (x.nodeFeatures.zip m.l_n_features).map
    (fun p => p.1.getD ⟨[], p.2, by intro r hr; cases hr⟩)

/-- Number of type-`t` nodes read off the raw node-feature list
(`l_node_features[typ].shape[0]`).  In `_check_size_x` this is only evaluated
after the node-feature checks passed, so the `0` fallback is never reachable
there. -/
def nodeCountRaw (x : Instance) (t : ℕ) : ℕ :=
  match x.nodeFeatures[t]? with
  | some (some a) => a.rows.length
  | _ => 0

/-- Inner loop of the `a_startindex_by_typ_typ` construction (`__init__`
lines 108-111): the row for `typ1` (with `typ1_n_states = n1`), iterating
`typ2` over `l`, threading the running counter `i_state_start = c`.
The counter is a Python int (unbounded), but the matrix cell the offset is
written into has dtype `np.uint32` (line 106), which silently wraps the
value at `2 ^ 32` — so the stored entry is `c % 2 ^ 32`.
Returns the row together with the counter after the row. -/
def edgeStartRow (n1 : ℕ) (l : List ℕ) (c : ℕ) : List ℕ × ℕ :=
  match l with
  | [] => ([], c)
  | n2 :: t =>
      let r := edgeStartRow n1 t (c + n1 * n2)
      (c % 2 ^ 32 :: r.1, r.2)

/-- Outer loop of the `a_startindex_by_typ_typ` construction: iterating `typ1`
over `l`, with `all` the full `l_n_states` list for the inner loop. -/
def edgeStartRows (all : List ℕ) (l : List ℕ) (c : ℕ) : List (List ℕ) × ℕ :=
  match l with
  | [] => ([], c)
  | n1 :: t =>
      let r := edgeStartRow n1 all c
      let rest := edgeStartRows all t r.2
      (r.1 :: rest.1, rest.2)

/-- `self.a_startindex_by_typ_typ` as built by `__init__` lines 106-111,
as a row-indexed table.  The source stores it as a `np.uint32` numpy matrix,
so every stored entry is the running offset reduced mod `2 ^ 32`. -/
def TypedCRF.a_startindex_by_typ_typ (m : TypedCRF) : List (List ℕ) :=
  (edgeStartRows m.l_n_states m.l_n_states 0).1

/-- Lookup `a_startindex_by_typ_typ[t1, t2]` (0 when out of range;
within-range lookups are the only ones the source performs). -/
def TypedCRF.startIdxTT (m : TypedCRF) (t1 t2 : ℕ) : ℕ :=
  (m.a_startindex_by_typ_typ.getD t1 []).getD t2 0

/-- Python `min` over a nonempty collection, as a fold from a first element. -/
def foldMin (x : ℤ) (l : List ℤ) : ℤ := l.foldl min x

/-- Python `max` over a nonempty collection, as a fold from a first element. -/
def foldMax (x : ℤ) (l : List ℤ) : ℤ := l.foldl max x

/-- Column `j` of an edge array: `edges[:, j]`. -/
def colVals (rows : List (List ℤ)) (j : ℕ) : List ℤ := rows.map (fun p => p.getD j 0)

/-- Node-feature checks of `_check_size_x` lines 159-161, iterating
`enumerate(l_node_features)`: a `None` slot raises AttributeError at
`typ_features.shape`; a wrong column count raises ValueError.  `lf` is
`self.l_n_features`, indexed by the running `typ` (IndexError when past
its end, unreachable for a schema built by `init`). -/
def featureDimCheck (lf : List ℕ) : List (Option (Arr2 ℚ)) → ℕ → Option CheckErr
  | [], _ => none
  | none :: _, typ => some (.noneNodeFeatures typ)
  | some a :: rest, typ =>
      match lf[typ]? with
      | none => some .indexOut
      | some nf =>
          if a.ncols ≠ nf then some (.badFeatureDim typ)
          else featureDimCheck lf rest (typ + 1)

/-- Edge-shape checks of `_check_size_x` lines 165-170: every non-`None` edge
array must be a two-column 2-D array (empty ones included).  Every `Arr2` is
2-D, so only the column count is checked here. -/
def edgeShapeCheck : List (Option (Arr2 ℤ)) → Option CheckErr
  | [] => none
  | none :: rest => edgeShapeCheck rest
  | some a :: rest =>
      if a.ncols ≠ 2 then some .badEdgeCols else edgeShapeCheck rest

/-- The endpoint checks run on a non-`None` edge table of the pair
`(t1, t2)` (`cnt1`, `cnt2` are the node counts of the two types):
skip when empty, else `nodes1, nodes2 = edges[:,0], edges[:,1]` and the
negative / source / target checks in source order, the folds being
`min(nodes1)` etc. with the first row peeled as fold seed. -/
def pairScan (t1 t2 : ℕ) (cnt1 cnt2 : ℕ) (rows : List (List ℤ)) : Option CheckErr :=
  match rows with
  | [] => none
  | r :: rs =>
      if foldMin (r.getD 0 0) (colVals rs 0) < 0 ∨
         foldMin (r.getD 1 0) (colVals rs 1) < 0 then
        some (.negativeEdgeIndex t1 t2)
      else if foldMax (r.getD 0 0) (colVals rs 0) ≥ (cnt1 : ℤ) then
        some (.danglingSource t1 t2)
      else if foldMax (r.getD 1 0) (colVals rs 1) ≥ (cnt2 : ℤ) then
        some (.danglingTarget t1 t2)
      else none

/-- Body of the per-type-pair loop of `_check_size_x` lines 172-183 for the
pair `(t1, t2)`: fetch `x[1][t1*n_types+t2]` (IndexError when absent), skip
`None` tables, and run the endpoint checks. -/
def pairCheck (m : TypedCRF) (x : Instance) (t1 t2 : ℕ) : Option CheckErr :=
  match x.edges[t1 * m.n_types + t2]? with
  | none => some .indexOut
  | some none => none
  | some (some a) => pairScan t1 t2 (nodeCountRaw x t1) (nodeCountRaw x t2) a.rows

/-- The pairs yielded by `_iter_type_pairs`, row-major. -/
def allPairs (n : ℕ) : List (ℕ × ℕ) :=
  (List.range n).flatMap (fun t1 => (List.range n).map (fun t2 => (t1, t2)))

/-- The per-pair loop of `_check_size_x`: first error over the given pairs. -/
def pairLoop (m : TypedCRF) (x : Instance) : List (ℕ × ℕ) → Option CheckErr
  | [] => none
  | (t1, t2) :: rest =>
      match pairCheck m x t1 t2 with
      | some e => some e
      | none => pairLoop m x rest

/-- `TypedCRF._check_size_x` (lines 153-184). -/
def check_size_x (m : TypedCRF) (x : Instance) : Except CheckErr Bool :=
  if x.nodeFeatures.length ≠ m.n_types then .error .badNodeFeatureCount
  else
    match featureDimCheck m.l_n_features x.nodeFeatures 0 with
    | some e => .error e
    | none =>
        match edgeShapeCheck x.edges with
        | some e => .error e
        | none =>
            match pairLoop m x (allPairs m.n_types) with
            | some e => .error e
            | none => .ok true

/-- Per-run label checks of `_check_size_xy` lines 199-205, for the run of
type `typ`: `np.min` on an empty run raises a numpy ValueError; a negative
minimum raises ValueError (line 200); then the two InconsistentLabel range
checks against `_l_type_startindex` (lines 204-205). -/
def labelRunCheck (m : TypedCRF) (typ : ℕ) (run : List ℤ) : Option CheckErr :=
  match run with
  | [] => some (.emptyLabelRun typ)
  | y :: ys =>
      if foldMin y ys < 0 then some (.negativeLabel typ)
      else if foldMin y ys < (m.typeStart typ : ℤ) then some (.labelBelowRange typ)
      else if foldMax y ys ≥ (m.typeStart (typ + 1) : ℤ) then some (.labelAboveRange typ)
      else none

/-- The per-type loop of `_check_size_xy` lines 196-206, over
`zip(range(n_types), l_node_features, l_n_states)`, threading `i_start`. -/
def labelLoop (m : TypedCRF) : List (ℕ × (Arr2 ℚ × ℕ)) → ℕ → List ℤ → Option CheckErr
  | [], _, _ => none
  | (typ, nf, _) :: rest, i_start, Y =>
      let run := (Y.drop i_start).take nf.rows.length
      match labelRunCheck m typ run with
      | some e => some e
      | none => labelLoop m rest (i_start + nf.rows.length) Y

/-- `TypedCRF._check_size_xy` (lines 186-207) for a given (non-`None`) label
vector `Y`. -/
def check_size_xy (m : TypedCRF) (x : Instance) (Y : List ℤ) : Except CheckErr Bool :=
  let lnf := getNodeFeaturesClean m x
  if Y.length ≠ (lnf.map (fun a => a.rows.length)).sum then .error .badLabelCount
  else
    match labelLoop m ((List.range m.n_types).zip (lnf.zip m.l_n_states)) 0 Y with
    | some e => .error e
    | none => .ok true

/-- Dot product of two feature vectors (numpy inner product; the operands the
source feeds it always have equal length). -/
def dotQ (a b : List ℚ) : ℚ := (List.zipWith (fun u v => u * v) a b).sum

/-- `w[i:i+n]` (Python slice). -/
def slice (w : List ℚ) (i n : ℕ) : List ℚ := (w.drop i).take n

/-- `w_seg.reshape(n_states, n_features)` for a segment of length
`n_states*n_features` (the only shape the source feeds it, guaranteed by
`_check_size_w`): row `s` is `w_seg[s*n_features : (s+1)*n_features]`. -/
def reshapeRows (seg : List ℚ) (n_states n_features : ℕ) : List (List ℚ) :=
  (List.range n_states).map (fun s => (seg.drop (s * n_features)).take n_features)

/-- `np.dot(features, W.T)`: entry `(i, s)` is the dot product of feature row
`i` with weight row `s`. -/
def dotT (rows : List (List ℚ)) (W : List (List ℚ)) : List (List ℚ) :=
  rows.map (fun r => W.map (fun wrow => dotQ r wrow))

/-- Loop of `_get_unary_potentials` lines 269-273 over
`zip(l_node_features, l_n_states, l_n_features)`, threading `i_w`.
Returns the list of tables and the final `i_w`. -/
def unaryLoop (w : List ℚ) : List (Arr2 ℚ × ℕ × ℕ) → ℕ → List (List (List ℚ)) × ℕ
  | [], i_w => ([], i_w)
  | (f, ns, nf) :: rest, i_w =>
      let n_w := ns * nf
      let tbl := dotT f.rows (reshapeRows (slice w i_w n_w) ns nf)
      let r := unaryLoop w rest (i_w + n_w)
      (tbl :: r.1, r.2)

/-- `TypedCRF._get_unary_potentials` (lines 248-277): `_check_size_w` (modelled
from the spec: ValueError when `len(w) != size_unary_weights`), the per-type
dot products, and the `assert i_w == self.size_unaries`. -/
def get_unary_potentials (m : TypedCRF) (x : Instance) (w : List ℚ) :
    Except CheckErr (List (List (List ℚ))) :=
  if w.length ≠ m.size_unaries then .error .badWeightLen
  else
    let lnf := getNodeFeaturesClean m x
    let r := unaryLoop w (lnf.zip (m.l_n_states.zip m.l_n_features)) 0
    if r.2 = m.size_unaries then .ok r.1 else .error .sizeAssert

/-- Width of the node-feature array in slot `t`, when one is present. -/
def nodeColsAt (x : Instance) (t : ℕ) : Option ℕ :=
  match x.nodeFeatures[t]? with
  | some (some a) => some a.ncols
  | _ => none

/-- Edge slot `k` is either absent (`None`) or a two-column array. -/
def edgeColsOkB (x : Instance) (k : ℕ) : Bool :=
  match x.edges[k]? with
  | some (some a) => a.ncols = 2
  | _ => true

/-- Whether the edge table of the pair `(t1, t2)` is present, non-empty and
contains an edge with a negative endpoint, a source index out of range for
type `t1`, or a target index out of range for type `t2`. -/
def pairViolationB (m : TypedCRF) (x : Instance) (t1 t2 : ℕ) : Bool :=
  match x.edges[t1 * m.n_types + t2]? with
  | some (some a) =>
      !a.rows.isEmpty &&
      a.rows.any (fun p =>
        p.getD 0 0 < 0 || p.getD 1 0 < 0 ||
        (nodeCountRaw x t1 : ℤ) ≤ p.getD 0 0 || (nodeCountRaw x t2 : ℤ) ≤ p.getD 1 0)
  | _ => false

/-- The structural (pre-edge-endpoint) part of instance validity: `n_types`
node-feature arrays, each present with its type's declared width;
`n_types * n_types` edge slots, each absent or two-column. -/
def structOk (m : TypedCRF) (x : Instance) : Prop :=
  x.nodeFeatures.length = m.n_types ∧
  (∀ t < m.n_types, nodeColsAt x t = some (m.l_n_features.getD t 0)) ∧
  x.edges.length = m.n_types * m.n_types ∧
  (∀ k < m.n_types * m.n_types, edgeColsOkB x k = true)

instance (m : TypedCRF) (x : Instance) : Decidable (structOk m x) := by
  unfold structOk; infer_instance

/-- A structurally valid instance: structure plus all edge endpoints in range. -/
def validInstance (m : TypedCRF) (x : Instance) : Prop :=
  structOk m x ∧ ∀ t1 < m.n_types, ∀ t2 < m.n_types, pairViolationB m x t1 t2 = false

instance (m : TypedCRF) (x : Instance) : Decidable (validInstance m x) := by
  unfold validInstance; infer_instance

/-- The empty 2-D array. -/
def Arr2.empty {α : Type} : Arr2 α := ⟨[], 0, by intro r hr; cases hr⟩

/-- Feature vector of node `i` of type `t` (row `i` of the type's cleaned
node-feature table). -/
def nodeRow (m : TypedCRF) (x : Instance) (t i : ℕ) : List ℚ :=
  ((getNodeFeaturesClean m x).getD t Arr2.empty).rows.getD i []

/-- The instance with edge slot `k` replaced (same node features). -/
def setEdge (x : Instance) (k : ℕ) (v : Option (Arr2 ℤ)) : Instance :=
  ⟨x.nodeFeatures, x.edges.set k v⟩

/-- An empty edge table of the correct two-column shape (`np.zeros((0, 2))`). -/
def emptyTwoCol : Arr2 ℤ := ⟨[], 2, by intro r hr; cases hr⟩

/-- Per-type node counts of an instance, as the label validator sees them
(row counts of the cleaned node-feature tables). -/
def instCounts (m : TypedCRF) (x : Instance) : List ℕ :=
  (getNodeFeaturesClean m x).map (fun a => a.rows.length)

/-- The contiguous label run of type `t`: `Y[i_start : i_start + counts[t]]`
where `i_start` is the sum of the earlier types' node counts. -/
def typeRun (counts : List ℕ) (Y : List ℤ) (t : ℕ) : List ℤ :=
  (Y.drop ((counts.take t).sum)).take (counts.getD t 0)

/-- The label run examined at step `j` of the label loop when it started at
offset `i0`: `Y[i0 + sum(counts[:j]) : ... + counts[j]]`. -/
def runSlice (counts : List ℕ) (Y : List ℤ) (i0 j : ℕ) : List ℤ :=
  (Y.drop (i0 + (counts.take j).sum)).take (counts.getD j 0)

/-- The label-range violation of claim C3: some type's label run contains a
value below `type_label_bounds[t]` or at/above `type_label_bounds[t+1]`. -/
def labelViolation (m : TypedCRF) (x : Instance) (Y : List ℤ) : Prop :=
  ∃ t < m.n_types, ∃ y ∈ typeRun (instCounts m x) Y t,
    y < (m.typeStart t : ℤ) ∨ (m.typeStart (t + 1) : ℤ) ≤ y

instance (m : TypedCRF) (x : Instance) (Y : List ℤ) :
    Decidable (labelViolation m x Y) := by
  unfold labelViolation; infer_instance

/-- Row-major sum of `states[i] * states[j]` over all ordered pairs `(i, j)`
preceding `(t1, t2)`: the offset claim C7 asserts for
`a_startindex_by_typ_typ[t1][t2]`. -/
def rowMajorPrior (s : List ℕ) (t1 t2 : ℕ) : ℕ :=
  (∑ i ∈ Finset.range t1, ∑ j ∈ Finset.range s.length, s.getD i 0 * s.getD j 0) +
  ∑ j ∈ Finset.range t2, s.getD t1 0 * s.getD j 0

/-- `sum(l_n_edge_states)`: the size of the flattened edge-state space. -/
def TypedCRF.totalEdgeStates (m : TypedCRF) : ℕ := m.l_n_edge_states.sum

instance {ε α : Type} [DecidableEq ε] [DecidableEq α] : DecidableEq (Except ε α) := fun a b =>
  match a, b with
  | .error e1, .error e2 =>
      decidable_of_iff (e1 = e2) ⟨fun h => by rw [h], fun h => by injection h⟩
  | .error _, .ok _ => isFalse (fun h => Except.noConfusion h)
  | .ok _, .error _ => isFalse (fun h => Except.noConfusion h)
  | .ok a1, .ok a2 =>
      decidable_of_iff (a1 = a2) ⟨fun h => by rw [h], fun h => by injection h⟩

/-! ### Generic list helpers -/

/-- Prefix sums of a list of naturals expressed as a `Finset.range` sum. -/
theorem take_sum_getD (s : List ℕ) :
    ∀ t, t ≤ s.length → (s.take t).sum = ∑ i ∈ Finset.range t, s.getD i 0 := by
  induction s with
  | nil =>
      intro t ht
      have : t = 0 := Nat.le_zero.mp ht
      subst this; simp
  | cons a tl ih =>
      intro t ht
      cases t with
      | zero => simp
      | succ t' =>
          rw [List.take_succ_cons, List.sum_cons, Finset.sum_range_succ']
          simp only [List.getD_cons_succ, List.getD_cons_zero]
          rw [ih t' (by simpa using ht)]
          omega

theorem take_sum_succ (s : List ℕ) (t : ℕ) (h : t < s.length) :
    (s.take (t + 1)).sum = (s.take t).sum + s.getD t 0 := by
  rw [List.take_succ, List.sum_append]
  simp [List.getElem?_eq_getElem h, List.getD_eq_getElem?_getD]

theorem take_sum_mono (s : List ℕ) {t t' : ℕ} (h : t ≤ t') :
    (s.take t).sum ≤ (s.take t').sum := by
  have h1 : (s.take t').take t = s.take t := by rw [List.take_take, min_eq_left h]
  calc (s.take t).sum = ((s.take t').take t).sum := by rw [h1]
    _ ≤ ((s.take t').take t).sum + ((s.take t').drop t).sum := Nat.le_add_right _ _
    _ = (s.take t').sum := by rw [← List.sum_append, List.take_append_drop]

theorem take_sum_le (s : List ℕ) (t : ℕ) : (s.take t).sum ≤ s.sum := by
  conv_rhs => rw [← List.take_append_drop t s]
  rw [List.sum_append]
  exact Nat.le_add_right _ _

/-- Any position below the total of a list of block sizes falls in exactly one
block: there is a block whose prefix-sum range contains it. -/
theorem prefix_find (s : List ℕ) (k : ℕ) (h : k < s.sum) :
    ∃ t < s.length, (s.take t).sum ≤ k ∧ k < (s.take t).sum + s.getD t 0 := by
  induction s generalizing k with
  | nil => simp at h
  | cons a tl ih =>
      rcases Nat.lt_or_ge k a with hk | hk
      · exact ⟨0, by simp, by simp, by simpa using hk⟩
      · have h' : k - a < tl.sum := by
          rw [List.sum_cons] at h; omega
        obtain ⟨t, ht, h1, h2⟩ := ih (k - a) h'
        refine ⟨t + 1, Nat.succ_lt_succ ht, ?_, ?_⟩
        · rw [List.take_succ_cons, List.sum_cons]; omega
        · rw [List.take_succ_cons, List.sum_cons, List.getD_cons_succ]; omega

/-- `get?` of a `zip` at an in-range index, phrased with `getD`. -/
theorem zip_getElem? {α β : Type} (a : List α) (b : List β) (j : ℕ) (da : α) (db : β)
    (h1 : j < a.length) (h2 : j < b.length) :
    (a.zip b)[j]? = some (a.getD j da, b.getD j db) := by
  induction a generalizing b j with
  | nil => simp at h1
  | cons x xs ih =>
      cases b with
      | nil => simp at h2
      | cons y ys =>
          cases j with
          | zero => simp
          | succ j' =>
              simp only [List.zip_cons_cons, List.getElem?_cons_succ, List.getD_cons_succ]
              exact ih ys j' (by simpa using h1) (by simpa using h2)

/-- Mapping the product of the two inner components over `a.zip (b.zip c)`
is `zipWith` on `b` and `c`, truncated at `a`'s length. -/
theorem map_zip_zipWith {α : Type} (a : List α) (b c : List ℕ) :
    (a.zip (b.zip c)).map (fun p => p.2.1 * p.2.2) =
      (List.zipWith (fun u v => u * v) b c).take a.length := by
  induction a generalizing b c with
  | nil => simp
  | cons x xs ih =>
      cases b with
      | nil => simp
      | cons u us =>
          cases c with
          | nil => simp
          | cons v vs => simpa using ih us vs

theorem foldMin_lt_iff (x : ℤ) (l : List ℤ) (c : ℤ) :
    foldMin x l < c ↔ x < c ∨ ∃ y ∈ l, y < c := by
  induction l generalizing x with
  | nil => simp [foldMin]
  | cons a tl ih =>
      show foldMin (min x a) tl < c ↔ _
      rw [ih]
      simp only [List.mem_cons]
      constructor
      · rintro (h | ⟨y, hy, hc⟩)
        · rcases min_lt_iff.mp h with h' | h'
          · exact Or.inl h'
          · exact Or.inr ⟨a, Or.inl rfl, h'⟩
        · exact Or.inr ⟨y, Or.inr hy, hc⟩
      · rintro (h | ⟨y, hy | hy, hc⟩)
        · exact Or.inl (min_lt_iff.mpr (Or.inl h))
        · exact Or.inl (min_lt_iff.mpr (Or.inr (hy ▸ hc)))
        · exact Or.inr ⟨y, hy, hc⟩

theorem le_foldMax_iff (x : ℤ) (l : List ℤ) (c : ℤ) :
    c ≤ foldMax x l ↔ c ≤ x ∨ ∃ y ∈ l, c ≤ y := by
  induction l generalizing x with
  | nil => simp [foldMax]
  | cons a tl ih =>
      show c ≤ foldMax (max x a) tl ↔ _
      rw [ih]
      simp only [List.mem_cons]
      constructor
      · rintro (h | ⟨y, hy, hc⟩)
        · rcases le_max_iff.mp h with h' | h'
          · exact Or.inl h'
          · exact Or.inr ⟨a, Or.inl rfl, h'⟩
        · exact Or.inr ⟨y, Or.inr hy, hc⟩
      · rintro (h | ⟨y, hy | hy, hc⟩)
        · exact Or.inl (le_max_iff.mpr (Or.inl h))
        · exact Or.inl (le_max_iff.mpr (Or.inr (hy ▸ hc)))
        · exact Or.inr ⟨y, hy, hc⟩

theorem flatten_map_replicate (l : List ℕ) (q : ℚ) :
    (l.map fun n => List.replicate n q).flatten = List.replicate l.sum q := by
  induction l with
  | nil => simp
  | cons a tl ih =>
      rw [List.map_cons, List.flatten_cons, ih, List.sum_cons, List.replicate_add]

/-! ### Constructor claims (C9, C10) -/

theorem classWeightCheck_some (ns : List ℕ) (cs : List (List ℚ)) :
    ∀ k, (∃ i, i < ns.length ∧ i < cs.length ∧ (cs.getD i []).length ≠ ns.getD i 0) →
    ∃ j, classWeightCheck ns cs k = some j := by
  induction ns generalizing cs with
  | nil =>
      rintro k ⟨i, hi, -, -⟩
      simp at hi
  | cons n ns' ih =>
      intro k h
      cases cs with
      | nil =>
          obtain ⟨i, -, hi, -⟩ := h
          simp at hi
      | cons c cs' =>
          by_cases hc : c.length = n
          · obtain ⟨i, h1, h2, h3⟩ := h
            cases i with
            | zero => simp [hc] at h3
            | succ i' =>
                have := ih cs' (k + 1)
                  ⟨i', by simpa using h1, by simpa using h2, by simpa using h3⟩
                simpa [classWeightCheck, hc] using this
          · exact ⟨k, by simp [classWeightCheck, hc]⟩

/-- C10: constructing a schema with `l_n_features = None` never succeeds.
When the states-length check passes, the failure is the TypeError raised by
`sum(None)` at line 64 (the line-58 length check having been skipped); for
every other choice of arguments construction still fails (with the line-56
ValueError). -/
theorem claim_C10 (n_types : ℕ) (l_n_states : List ℕ) (lcw : Option (List (List ℚ)))
    (h : l_n_states.length = n_types) :
    init n_types l_n_states none lcw = .error .sumNoneFeatures ∧
    ∀ nt : ℕ, ∀ ls : List ℕ, ∀ cw : Option (List (List ℚ)),
      ∃ e, init nt ls none cw = .error e := by
  refine ⟨by simp [init, h], ?_⟩
  intro nt ls cw
  by_cases hl : ls.length = nt
  · exact ⟨.sumNoneFeatures, by simp [init, hl]⟩
  · exact ⟨.badStatesLen, by simp [init, hl]⟩

/-- Witness for C10 at concrete inputs. -/
theorem claim_C10_witness :
    init 1 [1] none none = .error .sumNoneFeatures ∧
    ∃ e, init 2 [1] none none = .error e :=
  ⟨(claim_C10 1 [1] none rfl).1, (claim_C10 1 [1] none rfl).2 2 [1] none⟩

/-- Counterexample to C9 as stated: a supplied class-weight list of length 0
for a schema with one type (`length differs from n_types`) does not raise —
Python's `if l_class_weight:` is falsy on an empty list, so construction
succeeds with the all-ones default. -/
theorem claim_C9_counterexample :
    List.length ([] : List (List ℚ)) ≠ 1 ∧
    init 1 [1] (some [1]) (some ([] : List (List ℚ))) = .ok ⟨1, [1], [1], [[1]]⟩ :=
  ⟨by decide, rfl⟩

/-- C9 (amended): for a schema call with `n_types ≥ 1` and a well-sized
`features_per_type`, construction fails on a states-length mismatch, on a
supplied *non-empty* class-weight list whose length differs from `n_types`,
and on any supplied class-weight vector whose length differs from its type's
state count; when the states length matches and class weights are omitted
(`None`, or — per the amendment — an empty list, which Python truthiness
treats as omitted), construction succeeds and the concatenated class-weight
vector is all ones of length `total_states`.  Abort-on-error is modelled by
`Except`: an error exposes no schema value. -/
theorem claim_C9 (n_types : ℕ) (l_n_states fl : List ℕ)
    (hn : 1 ≤ n_types) (hf : fl.length = n_types) :
    (∀ lcw, l_n_states.length ≠ n_types →
        init n_types l_n_states (some fl) lcw = .error .badStatesLen) ∧
    (l_n_states.length = n_types →
      (∀ c : List ℚ, ∀ cs : List (List ℚ), (c :: cs).length ≠ n_types →
          init n_types l_n_states (some fl) (some (c :: cs)) =
            .error .badClassWeightLen) ∧
      (∀ c : List ℚ, ∀ cs : List (List ℚ), (c :: cs).length = n_types →
          (∃ i < n_types, ((c :: cs).getD i []).length ≠ l_n_states.getD i 0) →
          ∃ i, init n_types l_n_states (some fl) (some (c :: cs)) =
            .error (.badClassWeightStates i)) ∧
      (∀ lcw, lcw = none ∨ lcw = some [] →
          init n_types l_n_states (some fl) lcw =
            .ok ⟨n_types, l_n_states, fl, l_n_states.map fun n => List.replicate n 1⟩ ∧
          TypedCRF.class_weight
              ⟨n_types, l_n_states, fl, l_n_states.map fun n => List.replicate n 1⟩ =
            List.replicate l_n_states.sum 1)) := by
  constructor
  · intro lcw hne
    simp [init, hne]
  · intro hs
    have hdef_ne : ¬ (l_n_states.map fun n => List.replicate n (1 : ℚ)).isEmpty = true := by
      cases l_n_states with
      | nil => exfalso; simp at hs; omega
      | cons a t => simp
    refine ⟨?_, ?_, ?_⟩
    · intro c cs hlen
      have hres : resolveClassWeight n_types l_n_states (some (c :: cs)) =
          .error .badClassWeightLen := by
        simp only [resolveClassWeight, if_pos hlen]
      simp [init, hs, hf, hres]
    · intro c cs hlen hex
      obtain ⟨i, hi, hne⟩ := hex
      obtain ⟨j, hj⟩ := classWeightCheck_some l_n_states (c :: cs) 0
        ⟨i, by omega, by omega, hne⟩
      exact ⟨j, by simp [init, hs, hf, resolveClassWeight, hlen, hj]⟩
    · rintro lcw (rfl | rfl) <;>
        exact ⟨by simp [init, hs, hf, resolveClassWeight, hdef_ne], by
          rw [TypedCRF.class_weight, flatten_map_replicate]⟩

/-- Witness for C9 at concrete inputs: a non-empty class-weight list of wrong
length raises; omitting class weights succeeds with the all-ones default. -/
theorem claim_C9_witness :
    init 2 [2, 3] (some [1, 1]) (some [[1]]) = .error .badClassWeightLen ∧
    init 2 [2, 3] (some [1, 1]) none = .ok ⟨2, [2, 3], [1, 1], [[1, 1], [1, 1, 1]]⟩ := by
  obtain ⟨-, h2⟩ := claim_C9 2 [2, 3] [1, 1] (by decide) (by decide)
  obtain ⟨ha, -, hd⟩ := h2 (by decide)
  refine ⟨ha [1] [] (by decide), ?_⟩
  rw [(hd none (Or.inl rfl)).1]
  rfl

/-! ### Unary potentials (C1, C2) -/

theorem zipWith_mul_sum (s : List ℕ) :
    ∀ (f : List ℕ) (n : ℕ), s.length = n → f.length = n →
    (List.zipWith (fun a b => a * b) s f).sum =
      ∑ t ∈ Finset.range n, s.getD t 0 * f.getD t 0 := by
  induction s with
  | nil =>
      intro f n hs _
      subst hs
      simp
  | cons a s' ih =>
      intro f n hs hf
      cases f with
      | nil => rw [← hs] at hf; simp at hf
      | cons b f' =>
          cases n with
          | zero => simp at hs
          | succ n' =>
              rw [List.zipWith_cons_cons, List.sum_cons, Finset.sum_range_succ']
              simp only [List.getD_cons_succ, List.getD_cons_zero]
              rw [ih f' n' (by simpa using hs) (by simpa using hf)]
              omega

theorem clean_length (m : TypedCRF) (x : Instance) :
    (getNodeFeaturesClean m x).length = min x.nodeFeatures.length m.l_n_features.length := by
  simp [getNodeFeaturesClean]

theorem unaryLoop_snd (w : List ℚ) :
    ∀ (l : List (Arr2 ℚ × ℕ × ℕ)) (i0 : ℕ),
    (unaryLoop w l i0).2 = i0 + (l.map fun p => p.2.1 * p.2.2).sum := by
  intro l
  induction l with
  | nil => intro i0; simp [unaryLoop]
  | cons p rest ih =>
      intro i0
      obtain ⟨f, ns, nf⟩ := p
      show (unaryLoop w rest (i0 + ns * nf)).2 = _
      rw [ih]
      simp [List.sum_cons]
      omega

/-- The final `i_w` of the unary loop equals `size_unaries` whenever the given
instance supplies one (cleaned) node-feature table per type. -/
theorem unaryLoop_final (m : TypedCRF) (x : Instance) (w : List ℚ)
    (h1 : validSchema m) (hx : x.nodeFeatures.length = m.n_types) :
    (unaryLoop w ((getNodeFeaturesClean m x).zip (m.l_n_states.zip m.l_n_features)) 0).2 =
      m.size_unaries := by
  rw [unaryLoop_snd, map_zip_zipWith, clean_length, hx, h1.2, Nat.min_self, Nat.zero_add]
  have hlen : (List.zipWith (fun u v => u * v) m.l_n_states m.l_n_features).length
      = m.n_types := by
    rw [List.length_zipWith, h1.1, h1.2, Nat.min_self]
  rw [← hlen, List.take_length]
  rfl

/-- Success shape of `get_unary_potentials` under the preconditions. -/
theorem get_unary_ok (m : TypedCRF) (x : Instance) (w : List ℚ)
    (h1 : validSchema m) (hx : x.nodeFeatures.length = m.n_types)
    (h3 : w.length = m.size_unaries) :
    get_unary_potentials m x w =
      .ok (unaryLoop w ((getNodeFeaturesClean m x).zip (m.l_n_states.zip m.l_n_features)) 0).1 := by
  simp only [get_unary_potentials]
  rw [if_neg (by omega), if_pos (unaryLoop_final m x w h1 hx)]

/-- C2: `size_unaries` is the sum over types of `states * features`, and on
any input meeting the preconditions the unary-potential computation returns
normally — in particular the `assert i_w == self.size_unaries` never fires. -/
theorem claim_C2 (m : TypedCRF) (x : Instance) (w : List ℚ)
    (h1 : validSchema m) (h2 : validInstance m x) (h3 : w.length = m.size_unaries) :
    m.size_unaries =
      (∑ t ∈ Finset.range m.n_types, m.l_n_states.getD t 0 * m.l_n_features.getD t 0) ∧
    ∃ ts, get_unary_potentials m x w = .ok ts := by
  constructor
  · exact zipWith_mul_sum m.l_n_states m.l_n_features m.n_types h1.1 h1.2
  · exact ⟨_, get_unary_ok m x w h1 h2.1.1 h3⟩

/-- Witness for C2: the spec's two-type scenario. -/
theorem claim_C2_witness :
    TypedCRF.size_unaries ⟨2, [1, 1], [1, 1], [[1], [1]]⟩ =
      (∑ t ∈ Finset.range 2,
        List.getD [1, 1] t 0 * List.getD [1, 1] t 0) ∧
    ∃ ts, get_unary_potentials ⟨2, [1, 1], [1, 1], [[1], [1]]⟩
      ⟨[some ⟨[[2]], 1, by decide⟩, some ⟨[[4]], 1, by decide⟩], [none, none, none, none]⟩
      [3, 5] = .ok ts :=
  claim_C2 _ _ _ (by decide) (by decide) (by decide)

theorem unaryLoop_fst_length (w : List ℚ) :
    ∀ (l : List (Arr2 ℚ × ℕ × ℕ)) (i0 : ℕ), (unaryLoop w l i0).1.length = l.length := by
  intro l
  induction l with
  | nil => intro i0; rfl
  | cons p rest ih =>
      intro i0
      obtain ⟨f, ns, nf⟩ := p
      show (_ :: (unaryLoop w rest (i0 + ns * nf)).1).length = _
      rw [List.length_cons, ih]
      rfl

theorem unaryLoop_fst_getElem? (w : List ℚ) (d : Arr2 ℚ × ℕ × ℕ) :
    ∀ (l : List (Arr2 ℚ × ℕ × ℕ)) (i0 j : ℕ), j < l.length →
    (unaryLoop w l i0).1[j]? = some (dotT (l.getD j d).1.rows
      (reshapeRows
        (slice w (i0 + ((l.map fun p => p.2.1 * p.2.2).take j).sum)
          ((l.getD j d).2.1 * (l.getD j d).2.2))
        (l.getD j d).2.1 (l.getD j d).2.2)) := by
  intro l
  induction l with
  | nil => intro i0 j h; simp at h
  | cons p rest ih =>
      intro i0 j hj
      obtain ⟨f, ns, nf⟩ := p
      cases j with
      | zero =>
          show (dotT f.rows (reshapeRows (slice w i0 (ns * nf)) ns nf) :: _)[0]? = _
          simp
      | succ j' =>
          have h' := ih (i0 + ns * nf) j' (by simpa using hj)
          show ((dotT f.rows _) :: (unaryLoop w rest (i0 + ns * nf)).1)[j' + 1]? = _
          rw [List.getElem?_cons_succ, h']
          simp only [List.getD_cons_succ, List.map_cons, List.take_succ_cons, List.sum_cons]
          rw [Nat.add_assoc]

theorem slice_slice (w : List ℚ) (off ns nf s : ℕ) (hs : s < ns) :
    ((slice w off (ns * nf)).drop (s * nf)).take nf = slice w (off + s * nf) nf := by
  unfold slice
  rw [List.drop_take, List.take_take, List.drop_drop]
  have h2 : s * nf + nf ≤ ns * nf := by
    rw [← Nat.succ_mul]
    exact Nat.mul_le_mul_right nf hs
  congr 1
  omega

theorem dotT_length (rows W : List (List ℚ)) : (dotT rows W).length = rows.length := by
  simp [dotT]

theorem dotT_getElem? (rows W : List (List ℚ)) (i : ℕ) (hi : i < rows.length) :
    (dotT rows W)[i]? = some (W.map (fun wrow => dotQ (rows.getD i []) wrow)) := by
  unfold dotT
  rw [List.getElem?_map, List.getElem?_eq_getElem hi]
  simp [List.getD_eq_getElem?_getD, List.getElem?_eq_getElem hi]

theorem reshapeRows_length (seg : List ℚ) (ns nf : ℕ) :
    (reshapeRows seg ns nf).length = ns := by
  simp [reshapeRows]

theorem reshapeRows_getElem? (seg : List ℚ) (ns nf s : ℕ) (hs : s < ns) :
    (reshapeRows seg ns nf)[s]? = some ((seg.drop (s * nf)).take nf) := by
  unfold reshapeRows
  simp [List.getElem?_map, List.getElem?_range hs]

theorem nodeColsAt_eq_some {x : Instance} {t c : ℕ} (h : nodeColsAt x t = some c) :
    ∃ a, x.nodeFeatures[t]? = some (some a) ∧ a.ncols = c := by
  unfold nodeColsAt at h
  split at h
  · next a heq => exact ⟨a, heq, by injection h⟩
  · exact absurd h (by simp)

theorem clean_getElem? (m : TypedCRF) (x : Instance) (t : ℕ) (a : Arr2 ℚ)
    (ha : x.nodeFeatures[t]? = some (some a)) (ht : t < m.l_n_features.length) :
    (getNodeFeaturesClean m x)[t]? = some a := by
  have hx : t < x.nodeFeatures.length := by
    by_contra hcon
    rw [List.getElem?_eq_none (by omega)] at ha
    exact absurd ha (by simp)
  unfold getNodeFeaturesClean
  rw [List.getElem?_map, zip_getElem? _ _ t none 0 hx ht]
  have : x.nodeFeatures.getD t none = some a := by
    simp [List.getD_eq_getElem?_getD, ha]
  rw [this]
  rfl

theorem zipWith_take_sum (s f : List ℕ) (n t : ℕ)
    (hs : s.length = n) (hf : f.length = n) (ht : t ≤ n) :
    ((List.zipWith (fun u v => u * v) s f).take t).sum =
      ∑ u ∈ Finset.range t, s.getD u 0 * f.getD u 0 := by
  rw [take_sum_getD _ t (by rw [List.length_zipWith]; omega)]
  refine Finset.sum_congr rfl (fun i hi => ?_)
  have hin : i < n := lt_of_lt_of_le (Finset.mem_range.mp hi) ht
  have hlen : i < (List.zipWith (fun u v => u * v) s f).length := by
    rw [List.length_zipWith]; omega
  rw [List.getD_eq_getElem?_getD, List.getElem?_eq_getElem hlen]
  rw [List.getElem_zipWith]
  simp [List.getD_eq_getElem?_getD, List.getElem?_eq_getElem (hs ▸ hin : i < s.length),
    List.getElem?_eq_getElem (hf ▸ hin : i < f.length)]

/-- C1: on a structurally valid instance with a well-sized weight vector,
`_get_unary_potentials` returns one table per type in declaration order; the
table for type `t` has one row per type-`t` node and one column per type-`t`
state, and entry `(i, s)` is the dot product of node `i`'s feature vector
with the weight sub-vector
`w[w_off + s*n_features : w_off + (s+1)*n_features]`, where `w_off` is the
sum of `states*features` over the preceding types. -/
theorem claim_C1 (m : TypedCRF) (x : Instance) (w : List ℚ)
    (h1 : validSchema m) (h2 : validInstance m x) (h3 : w.length = m.size_unaries) :
    ∃ ts, get_unary_potentials m x w = .ok ts ∧ ts.length = m.n_types ∧
      ∀ t < m.n_types, ∃ tbl, ts[t]? = some tbl ∧
        tbl.length = nodeCountRaw x t ∧
        ∀ i < nodeCountRaw x t, ∃ row, tbl[i]? = some row ∧
          row.length = m.l_n_states.getD t 0 ∧
          ∀ s < m.l_n_states.getD t 0,
            row[s]? = some (dotQ (nodeRow m x t i)
              (slice w
                ((∑ u ∈ Finset.range t, m.l_n_states.getD u 0 * m.l_n_features.getD u 0)
                  + s * m.l_n_features.getD t 0)
                (m.l_n_features.getD t 0))) := by
  obtain ⟨⟨hxlen, hcols, -, -⟩, -⟩ := h2
  have hclen : (getNodeFeaturesClean m x).length = m.n_types := by
    rw [clean_length, hxlen, h1.2, Nat.min_self]
  have hLlen : ((getNodeFeaturesClean m x).zip (m.l_n_states.zip m.l_n_features)).length
      = m.n_types := by
    rw [List.length_zip, List.length_zip, hclen, h1.1, h1.2]
    simp
  refine ⟨_, get_unary_ok m x w h1 hxlen h3, ?_, ?_⟩
  · rw [unaryLoop_fst_length, hLlen]
  · intro t ht
    obtain ⟨a, ha, -⟩ := nodeColsAt_eq_some (hcols t ht)
    have hacnt : nodeCountRaw x t = a.rows.length := by
      unfold nodeCountRaw
      rw [ha]
    have hcleant : (getNodeFeaturesClean m x)[t]? = some a :=
      clean_getElem? m x t a ha (by rw [h1.2]; exact ht)
    have hcleanD : (getNodeFeaturesClean m x).getD t Arr2.empty = a := by
      simp [List.getD_eq_getElem?_getD, hcleant]
    have hszD : (m.l_n_states.zip m.l_n_features).getD t (0, 0) =
        (m.l_n_states.getD t 0, m.l_n_features.getD t 0) := by
      rw [List.getD_eq_getElem?_getD,
        zip_getElem? m.l_n_states m.l_n_features t 0 0 (by rw [h1.1]; exact ht)
          (by rw [h1.2]; exact ht)]
      rfl
    have hLt : ((getNodeFeaturesClean m x).zip (m.l_n_states.zip m.l_n_features)).getD t
        (Arr2.empty, 0, 0) = (a, m.l_n_states.getD t 0, m.l_n_features.getD t 0) := by
      rw [List.getD_eq_getElem?_getD,
        zip_getElem? _ _ t Arr2.empty (0, 0) (by rw [hclen]; exact ht)
          (by rw [List.length_zip, h1.1, h1.2, Nat.min_self]; exact ht)]
      rw [Option.getD_some, hcleanD, hszD]
    have hoff : ((((getNodeFeaturesClean m x).zip
          (m.l_n_states.zip m.l_n_features)).map fun p => p.2.1 * p.2.2).take t).sum =
        ∑ u ∈ Finset.range t, m.l_n_states.getD u 0 * m.l_n_features.getD u 0 := by
      rw [map_zip_zipWith, List.take_take, hclen, min_eq_left (le_of_lt ht)]
      exact zipWith_take_sum m.l_n_states m.l_n_features m.n_types t h1.1 h1.2 (le_of_lt ht)
    have htbl := unaryLoop_fst_getElem? w (Arr2.empty, 0, 0)
      ((getNodeFeaturesClean m x).zip (m.l_n_states.zip m.l_n_features)) 0 t
      (by rw [hLlen]; exact ht)
    rw [hLt, hoff, Nat.zero_add] at htbl
    refine ⟨_, htbl, ?_, ?_⟩
    · rw [dotT_length, hacnt]
    · intro i hi
      have hi' : i < a.rows.length := by omega
      rw [dotT_getElem? _ _ i hi']
      refine ⟨_, rfl, ?_, ?_⟩
      · rw [List.length_map, reshapeRows_length]
      · intro s hs
        rw [List.getElem?_map, reshapeRows_getElem? _ _ _ s hs]
        simp only [Option.map_some']
        rw [slice_slice w _ _ _ s hs]
        unfold nodeRow
        rw [hcleanD]

/-- Witness for C1: the spec's concrete scenario — weights `[3, 5]`, a type-0
node with feature `[2]` and a type-1 node with feature `[4]` yield the tables
`[[6]]` and `[[20]]`. -/
theorem claim_C1_witness :
    get_unary_potentials ⟨2, [1, 1], [1, 1], [[1], [1]]⟩
        ⟨[some ⟨[[2]], 1, by decide⟩, some ⟨[[4]], 1, by decide⟩],
          [none, none, none, none]⟩ [3, 5] = .ok [[[6]], [[20]]] ∧
    ∃ ts, get_unary_potentials ⟨2, [1, 1], [1, 1], [[1], [1]]⟩
        ⟨[some ⟨[[2]], 1, by decide⟩, some ⟨[[4]], 1, by decide⟩],
          [none, none, none, none]⟩ [3, 5] = .ok ts ∧ ts.length = 2 := by
  constructor
  · norm_num [get_unary_potentials, getNodeFeaturesClean, unaryLoop, dotT, dotQ,
      reshapeRows, slice, TypedCRF.size_unaries, List.range_succ]
  · obtain ⟨ts, hok, hlen, -⟩ :=
      claim_C1 ⟨2, [1, 1], [1, 1], [[1], [1]]⟩
        ⟨[some ⟨[[2]], 1, by decide⟩, some ⟨[[4]], 1, by decide⟩],
          [none, none, none, none]⟩ [3, 5] (by decide) (by decide) (by decide)
    exact ⟨ts, hok, hlen⟩

/-! ### Instance validation (C5, C6, C8) -/

theorem featureDimCheck_none (lf : List ℕ) :
    ∀ (l : List (Option (Arr2 ℚ))) (k : ℕ),
    (∀ j < l.length, ∃ a, l[j]? = some (some a) ∧ lf[k + j]? = some a.ncols) →
    featureDimCheck lf l k = none := by
  intro l
  induction l with
  | nil => intro k _; rfl
  | cons o rest ih =>
      intro k h
      obtain ⟨a, ha0, hlf0⟩ := h 0 (by simp)
      rw [List.getElem?_cons_zero] at ha0
      injection ha0 with ha0
      subst ha0
      rw [Nat.add_zero] at hlf0
      have heq : featureDimCheck lf (some a :: rest) k =
          match lf[k]? with
          | none => some .indexOut
          | some nf =>
              if a.ncols ≠ nf then some (.badFeatureDim k) else featureDimCheck lf rest (k + 1) :=
        rfl
      rw [heq, hlf0]
      show (if a.ncols ≠ a.ncols then some (CheckErr.badFeatureDim k)
        else featureDimCheck lf rest (k + 1)) = none
      rw [if_neg (by simp)]
      refine ih (k + 1) (fun j hj => ?_)
      obtain ⟨b, hb, hlf⟩ := h (j + 1) (by simpa using hj)
      exact ⟨b, by simpa using hb, by rw [show k + 1 + j = k + (j + 1) by omega]; exact hlf⟩

theorem edgeShapeCheck_none :
    ∀ l : List (Option (Arr2 ℤ)),
    (∀ o ∈ l, ∀ a, o = some a → a.ncols = 2) → edgeShapeCheck l = none := by
  intro l
  induction l with
  | nil => intro _; rfl
  | cons o rest ih =>
      intro h
      cases o with
      | none => exact ih (fun o ho => h o (List.mem_cons_of_mem _ ho))
      | some a =>
          have ha := h (some a) (List.mem_cons_self _ _) a rfl
          show (if a.ncols ≠ 2 then some CheckErr.badEdgeCols else edgeShapeCheck rest) = none
          rw [if_neg (by omega)]
          exact ih (fun o ho => h o (List.mem_cons_of_mem _ ho))

theorem edgeShape_of_structOk {m : TypedCRF} {x : Instance} (h : structOk m x) :
    ∀ o ∈ x.edges, ∀ a, o = some a → a.ncols = 2 := by
  obtain ⟨-, -, helen, hecols⟩ := h
  intro o ho a hoa
  subst hoa
  obtain ⟨k, hko⟩ := List.getElem?_of_mem ho
  have hklt : k < x.edges.length := by
    by_contra hcon
    rw [List.getElem?_eq_none (by omega)] at hko
    exact absurd hko (by simp)
  have hk' : k < m.n_types * m.n_types := by omega
  have := hecols k hk'
  unfold edgeColsOkB at this
  rw [hko] at this
  exact of_decide_eq_true this

theorem foldMin_col_lt (r : List ℤ) (rs : List (List ℤ)) (j : ℕ) (c : ℤ) :
    foldMin (r.getD j 0) (colVals rs j) < c ↔ ∃ p ∈ r :: rs, p.getD j 0 < c := by
  rw [foldMin_lt_iff]
  simp [colVals]

theorem foldMax_col_le (r : List ℤ) (rs : List (List ℤ)) (j : ℕ) (c : ℤ) :
    c ≤ foldMax (r.getD j 0) (colVals rs j) ↔ ∃ p ∈ r :: rs, c ≤ p.getD j 0 := by
  rw [le_foldMax_iff]
  simp [colVals]

/-- The conditions scanned by the per-pair edge checks, as one predicate. -/
theorem pairViolationB_true_iff (m : TypedCRF) (x : Instance) (t1 t2 : ℕ)
    (a : Arr2 ℤ) (hsl : x.edges[t1 * m.n_types + t2]? = some (some a)) :
    pairViolationB m x t1 t2 = true ↔
      a.rows ≠ [] ∧ ∃ p ∈ a.rows,
        p.getD 0 0 < 0 ∨ p.getD 1 0 < 0 ∨
        (nodeCountRaw x t1 : ℤ) ≤ p.getD 0 0 ∨ (nodeCountRaw x t2 : ℤ) ≤ p.getD 1 0 := by
  unfold pairViolationB
  rw [hsl]
  simp [List.any_eq_true, List.isEmpty_iff, or_assoc]

theorem pairCheck_eq_scan (m : TypedCRF) (x : Instance) (t1 t2 : ℕ) (a : Arr2 ℤ)
    (hsl : x.edges[t1 * m.n_types + t2]? = some (some a)) :
    pairCheck m x t1 t2 =
      pairScan t1 t2 (nodeCountRaw x t1) (nodeCountRaw x t2) a.rows := by
  unfold pairCheck
  rw [hsl]

theorem pairCheck_none_of (m : TypedCRF) (x : Instance) (t1 t2 : ℕ)
    (hslot : t1 * m.n_types + t2 < x.edges.length)
    (hv : pairViolationB m x t1 t2 = false) : pairCheck m x t1 t2 = none := by
  cases hsl : x.edges[t1 * m.n_types + t2]? with
  | none =>
      rw [List.getElem?_eq_none_iff] at hsl
      omega
  | some o =>
      cases o with
      | none =>
          unfold pairCheck
          rw [hsl]
      | some a =>
          rw [pairCheck_eq_scan m x t1 t2 a hsl]
          cases hrows : a.rows with
          | nil => rfl
          | cons r rs =>
              have hv' : ¬ pairViolationB m x t1 t2 = true := by rw [hv]; simp
              rw [pairViolationB_true_iff m x t1 t2 a hsl, hrows] at hv'
              push_neg at hv'
              have hall := hv' (by simp)
              show (if foldMin (r.getD 0 0) (colVals rs 0) < 0 ∨
                  foldMin (r.getD 1 0) (colVals rs 1) < 0 then
                some (CheckErr.negativeEdgeIndex t1 t2)
              else if foldMax (r.getD 0 0) (colVals rs 0) ≥ (nodeCountRaw x t1 : ℤ) then
                some (CheckErr.danglingSource t1 t2)
              else if foldMax (r.getD 1 0) (colVals rs 1) ≥ (nodeCountRaw x t2 : ℤ) then
                some (CheckErr.danglingTarget t1 t2)
              else none) = none
              rw [if_neg, if_neg, if_neg]
              · rw [ge_iff_le, foldMax_col_le]
                push_neg
                intro p hp
                rcases hall p hp with ⟨-, -, -, h4⟩
                omega
              · rw [ge_iff_le, foldMax_col_le]
                push_neg
                intro p hp
                rcases hall p hp with ⟨-, -, h3, -⟩
                omega
              · rw [foldMin_col_lt, foldMin_col_lt]
                push_neg
                constructor
                · intro p hp
                  rcases hall p hp with ⟨h1, -, -, -⟩
                  omega
                · intro p hp
                  rcases hall p hp with ⟨-, h2, -, -⟩
                  omega

theorem pairCheck_some_of (m : TypedCRF) (x : Instance) (t1 t2 : ℕ)
    (hv : pairViolationB m x t1 t2 = true) :
    ∃ e, pairCheck m x t1 t2 = some e ∧
      (e = .negativeEdgeIndex t1 t2 ∨ e = .danglingSource t1 t2 ∨
        e = .danglingTarget t1 t2) := by
  cases hsl : x.edges[t1 * m.n_types + t2]? with
  | none => exact absurd hv (by unfold pairViolationB; rw [hsl]; simp)
  | some o =>
      cases o with
      | none => exact absurd hv (by unfold pairViolationB; rw [hsl]; simp)
      | some a =>
          rw [pairViolationB_true_iff m x t1 t2 a hsl] at hv
          obtain ⟨hne, p0, hp0, hcond⟩ := hv
          rw [pairCheck_eq_scan m x t1 t2 a hsl]
          cases hrows : a.rows with
          | nil => exact absurd hrows hne
          | cons r rs =>
              rw [hrows] at hp0
              have hscan : pairScan t1 t2 (nodeCountRaw x t1) (nodeCountRaw x t2) (r :: rs) =
                  (if foldMin (r.getD 0 0) (colVals rs 0) < 0 ∨
                      foldMin (r.getD 1 0) (colVals rs 1) < 0 then
                    some (CheckErr.negativeEdgeIndex t1 t2)
                  else if foldMax (r.getD 0 0) (colVals rs 0) ≥ (nodeCountRaw x t1 : ℤ) then
                    some (CheckErr.danglingSource t1 t2)
                  else if foldMax (r.getD 1 0) (colVals rs 1) ≥ (nodeCountRaw x t2 : ℤ) then
                    some (CheckErr.danglingTarget t1 t2)
                  else none) := rfl
              rw [hscan]
              by_cases hneg : foldMin (r.getD 0 0) (colVals rs 0) < 0 ∨
                  foldMin (r.getD 1 0) (colVals rs 1) < 0
              · exact ⟨_, by rw [if_pos hneg], Or.inl rfl⟩
              · rw [if_neg hneg]
                by_cases hsrc : (nodeCountRaw x t1 : ℤ) ≤ foldMax (r.getD 0 0) (colVals rs 0)
                · exact ⟨_, by rw [if_pos (ge_iff_le.mpr hsrc)], Or.inr (Or.inl rfl)⟩
                · rw [if_neg (by omega)]
                  by_cases htgt : (nodeCountRaw x t2 : ℤ) ≤ foldMax (r.getD 1 0) (colVals rs 1)
                  · exact ⟨_, by rw [if_pos (ge_iff_le.mpr htgt)], Or.inr (Or.inr rfl)⟩
                  · exfalso
                    rw [not_or, foldMin_col_lt, foldMin_col_lt] at hneg
                    rw [foldMax_col_le] at hsrc htgt
                    push_neg at hneg hsrc htgt
                    rcases hcond with h | h | h | h
                    · exact absurd h (by have := hneg.1 p0 hp0; omega)
                    · exact absurd h (by have := hneg.2 p0 hp0; omega)
                    · exact absurd h (by have := hsrc p0 hp0; omega)
                    · exact absurd h (by have := htgt p0 hp0; omega)

theorem pairLoop_none (m : TypedCRF) (x : Instance) :
    ∀ l : List (ℕ × ℕ), (∀ p ∈ l, pairCheck m x p.1 p.2 = none) → pairLoop m x l = none := by
  intro l
  induction l with
  | nil => intro _; rfl
  | cons p rest ih =>
      intro h
      obtain ⟨t1, t2⟩ := p
      show (match pairCheck m x t1 t2 with
        | some e => some e
        | none => pairLoop m x rest) = none
      rw [h (t1, t2) (List.mem_cons_self _ _)]
      exact ih (fun q hq => h q (List.mem_cons_of_mem _ hq))

theorem pairLoop_some (m : TypedCRF) (x : Instance) :
    ∀ l : List (ℕ × ℕ), (∃ p ∈ l, pairCheck m x p.1 p.2 ≠ none) →
    ∃ p ∈ l, ∃ e, pairLoop m x l = some e ∧ pairCheck m x p.1 p.2 = some e := by
  intro l
  induction l with
  | nil => rintro ⟨p, hp, -⟩; simp at hp
  | cons q rest ih =>
      rintro ⟨p, hp, hpne⟩
      obtain ⟨t1, t2⟩ := q
      cases hc : pairCheck m x t1 t2 with
      | some e =>
          refine ⟨(t1, t2), List.mem_cons_self _ _, e, ?_, hc⟩
          show (match pairCheck m x t1 t2 with
            | some e => some e
            | none => pairLoop m x rest) = some e
          rw [hc]
      | none =>
          have hpr : p ∈ rest := by
            rcases List.mem_cons.mp hp with rfl | h
            · exact absurd hc hpne
            · exact h
          obtain ⟨p', hp', e, hl, hpc⟩ := ih ⟨p, hpr, hpne⟩
          refine ⟨p', List.mem_cons_of_mem _ hp', e, ?_, hpc⟩
          show (match pairCheck m x t1 t2 with
            | some e => some e
            | none => pairLoop m x rest) = some e
          rw [hc]
          exact hl

theorem mem_allPairs (n : ℕ) (p : ℕ × ℕ) : p ∈ allPairs n ↔ p.1 < n ∧ p.2 < n := by
  obtain ⟨t1, t2⟩ := p
  simp [allPairs]

theorem pair_idx_lt {n t1 t2 : ℕ} (h1 : t1 < n) (h2 : t2 < n) : t1 * n + t2 < n * n := by
  have : (t1 + 1) * n ≤ n * n := Nat.mul_le_mul_right n h1
  rw [Nat.succ_mul] at this
  omega

/-- Under a valid schema and a structurally valid instance the node-feature
dimension loop raises nothing. -/
theorem featureDim_of_structOk (m : TypedCRF) (x : Instance)
    (h1 : validSchema m) (h2 : structOk m x) :
    featureDimCheck m.l_n_features x.nodeFeatures 0 = none := by
  obtain ⟨hs1, hs2⟩ := h1
  obtain ⟨hxlen, hcols, -, -⟩ := h2
  refine featureDimCheck_none m.l_n_features x.nodeFeatures 0 (fun j hj => ?_)
  obtain ⟨a, ha, hcolsa⟩ := nodeColsAt_eq_some (hcols j (by omega))
  refine ⟨a, ha, ?_⟩
  rw [Nat.zero_add, List.getElem?_eq_getElem (by omega : j < m.l_n_features.length), hcolsa]
  rw [List.getD_eq_getElem?_getD, List.getElem?_eq_getElem (by omega : j < m.l_n_features.length)]
  rfl

/-- Shared shape of a passing `_check_size_x` run. -/
theorem check_size_x_ok (m : TypedCRF) (x : Instance)
    (h1 : validSchema m) (h2 : validInstance m x) : check_size_x m x = .ok true := by
  have hfd := featureDim_of_structOk m x h1 h2.1
  have hes : edgeShapeCheck x.edges = none :=
    edgeShapeCheck_none x.edges (edgeShape_of_structOk h2.1)
  obtain ⟨⟨hxlen, hcols, helen, hecolsB⟩, hpairs⟩ := h2
  have hpl : pairLoop m x (allPairs m.n_types) = none := by
    refine pairLoop_none m x _ (fun p hp => ?_)
    obtain ⟨hp1, hp2⟩ := (mem_allPairs m.n_types p).mp hp
    exact pairCheck_none_of m x p.1 p.2 (by rw [helen]; exact pair_idx_lt hp1 hp2)
      (hpairs p.1 hp1 p.2 hp2)
  unfold check_size_x
  rw [if_neg (by omega), hfd, hes, hpl]

/-- C5: an instance that passes all structural and edge checks makes
`_check_size_x` return `True` without raising; the validator never mutates
its argument (it is a pure function of the instance in this model). -/
theorem claim_C5 (m : TypedCRF) (x : Instance)
    (h1 : validSchema m) (h2 : validInstance m x) : check_size_x m x = .ok true :=
  check_size_x_ok m x h1 h2

/-- Witness for C5: a two-type instance with a non-empty, in-range edge table. -/
theorem claim_C5_witness :
    check_size_x ⟨2, [2, 3], [1, 1], [[1, 1], [1, 1, 1]]⟩
      ⟨[some ⟨[[0], [0]], 1, by decide⟩, some ⟨[[0], [0], [0]], 1, by decide⟩],
        [none, some ⟨[[0, 2], [1, 0]], 2, by decide⟩, none, none]⟩ = .ok true :=
  claim_C5 _ _ (by decide) (by decide)

/-- Replacing an edge slot by `None` or by an empty two-column table
preserves instance validity. -/
theorem validInstance_setEdge (m : TypedCRF) (x : Instance) (k : ℕ) (v : Option (Arr2 ℤ))
    (h2 : validInstance m x) (hk : k < m.n_types * m.n_types)
    (hv : v = none ∨ v = some emptyTwoCol) :
    validInstance m (setEdge x k v) := by
  obtain ⟨⟨hxlen, hcols, helen, hecolsB⟩, hpairs⟩ := h2
  have hset : ∀ k', (setEdge x k v).edges[k']? = if k' = k then some v else x.edges[k']? := by
    intro k'
    by_cases hkk : k' = k
    · subst hkk
      rw [if_pos rfl]
      show (x.edges.set k' v)[k']? = some v
      rw [List.getElem?_set_self', List.getElem?_eq_getElem (by omega)]
      rfl
    · rw [if_neg hkk]
      exact List.getElem?_set_ne (fun h => hkk h.symm)
  refine ⟨⟨hxlen, hcols, ?_, ?_⟩, ?_⟩
  · show (x.edges.set k v).length = _
    rw [List.length_set]
    exact helen
  · intro k' hk'
    unfold edgeColsOkB
    rw [hset k']
    by_cases hkk : k' = k
    · rw [if_pos hkk]
      rcases hv with rfl | rfl
      · rfl
      · rfl
    · rw [if_neg hkk]
      have h := hecolsB k' hk'
      unfold edgeColsOkB at h
      exact h
  · intro t1 ht1 t2 ht2
    unfold pairViolationB
    rw [hset (t1 * m.n_types + t2)]
    by_cases hkk : t1 * m.n_types + t2 = k
    · rw [if_pos hkk]
      rcases hv with rfl | rfl
      · rfl
      · rfl
    · rw [if_neg hkk]
      have h := hpairs t1 ht1 t2 ht2
      unfold pairViolationB at h
      exact h

/-- Counterexample to C6 as stated: an instance whose only anomaly is an
*empty* edge table of shape `(0, 0)` is rejected — the two-column check of
lines 167-170 runs on every non-`None` table, empty ones included. -/
theorem claim_C6_counterexample :
    ((⟨[some ⟨[[0]], 1, by decide⟩], [some ⟨[], 0, by decide⟩]⟩ : Instance).edges.map
        (Option.map fun a => a.rows.length)) = [some 0] ∧
    check_size_x ⟨1, [1], [1], [[1]]⟩
        ⟨[some ⟨[[0]], 1, by decide⟩], [some ⟨[], 0, by decide⟩]⟩ =
      .error .badEdgeCols ∧
    CheckErr.exc .badEdgeCols = PyExc.valueError :=
  ⟨by decide, by decide, rfl⟩

/-- C6 (amended): a *missing* (`None`) edge table is skipped by every edge
check, and an *empty* table is skipped by the dangling-edge checks but must
still be two-column shaped; an empty two-column table raises nothing.
Replacing any edge slot of a valid instance by `None` or by an empty
two-column table keeps `_check_size_x` returning `True`. -/
theorem claim_C6 (m : TypedCRF) (x : Instance) (k : ℕ)
    (h1 : validSchema m) (h2 : validInstance m x) (hk : k < m.n_types * m.n_types) :
    check_size_x m (setEdge x k none) = .ok true ∧
    check_size_x m (setEdge x k (some emptyTwoCol)) = .ok true :=
  ⟨check_size_x_ok m _ h1 (validInstance_setEdge m x k none h2 hk (Or.inl rfl)),
   check_size_x_ok m _ h1 (validInstance_setEdge m x k (some emptyTwoCol) h2 hk (Or.inr rfl))⟩

/-- Witness for C6 at a concrete valid instance, dropping or emptying the
edge table of the pair `(0, 1)`. -/
theorem claim_C6_witness :
    check_size_x ⟨2, [2, 3], [1, 1], [[1, 1], [1, 1, 1]]⟩
      (setEdge ⟨[some ⟨[[0], [0]], 1, by decide⟩, some ⟨[[0], [0], [0]], 1, by decide⟩],
        [none, some ⟨[[0, 2], [1, 0]], 2, by decide⟩, none, none]⟩ 1 none) = .ok true ∧
    check_size_x ⟨2, [2, 3], [1, 1], [[1, 1], [1, 1, 1]]⟩
      (setEdge ⟨[some ⟨[[0], [0]], 1, by decide⟩, some ⟨[[0], [0], [0]], 1, by decide⟩],
        [none, some ⟨[[0, 2], [1, 0]], 2, by decide⟩, none, none]⟩ 1
        (some emptyTwoCol)) = .ok true :=
  claim_C6 _ _ 1 (by decide) (by decide) (by decide)

/-- C8: on an instance passing the structural checks, any type pair with a
non-empty edge table containing a negative endpoint, an out-of-range source,
or an out-of-range target makes `_check_size_x` raise one of the three
dangling-edge `ValueError`s, and the raised error names the offending type
pair and direction (it is the first error of the row-major pair scan, and it
certifies a real violation at the pair it names). -/
theorem claim_C8 (m : TypedCRF) (x : Instance)
    (h1 : validSchema m) (h2 : structOk m x)
    (h3 : ∃ t1, t1 < m.n_types ∧ ∃ t2, t2 < m.n_types ∧ pairViolationB m x t1 t2 = true) :
    ∃ t1, t1 < m.n_types ∧ ∃ t2, t2 < m.n_types ∧ ∃ e,
      check_size_x m x = .error e ∧ pairCheck m x t1 t2 = some e ∧
      pairViolationB m x t1 t2 = true ∧
      (e = .negativeEdgeIndex t1 t2 ∨ e = .danglingSource t1 t2 ∨
        e = .danglingTarget t1 t2) := by
  have hfd := featureDim_of_structOk m x h1 h2
  have hes : edgeShapeCheck x.edges = none :=
    edgeShapeCheck_none x.edges (edgeShape_of_structOk h2)
  obtain ⟨hxlen, hcols, helen, hecolsB⟩ := h2
  obtain ⟨t1, ht1, t2, ht2, hviol⟩ := h3
  have hpcne : pairCheck m x t1 t2 ≠ none := by
    obtain ⟨e, he, -⟩ := pairCheck_some_of m x t1 t2 hviol
    rw [he]
    simp
  obtain ⟨p, hp, e, hloop, hpc⟩ := pairLoop_some m x (allPairs m.n_types)
    ⟨(t1, t2), (mem_allPairs _ _).mpr ⟨ht1, ht2⟩, hpcne⟩
  obtain ⟨hp1, hp2⟩ := (mem_allPairs _ _).mp hp
  have hpslot : p.1 * m.n_types + p.2 < x.edges.length := by
    rw [helen]
    exact pair_idx_lt hp1 hp2
  have hpviol : pairViolationB m x p.1 p.2 = true := by
    cases hb : pairViolationB m x p.1 p.2 with
    | true => rfl
    | false =>
        rw [pairCheck_none_of m x p.1 p.2 hpslot hb] at hpc
        exact absurd hpc (by simp)
  obtain ⟨e', he', hkinds⟩ := pairCheck_some_of m x p.1 p.2 hpviol
  have hee : e = e' := by
    rw [hpc] at he'
    injection he'
  have hcheck : check_size_x m x = .error e := by
    unfold check_size_x
    rw [if_neg (by omega), hfd, hes, hloop]
  exact ⟨p.1, hp1, p.2, hp2, e, hcheck, hpc, hpviol, by rw [hee]; exact hkinds⟩

/-- Witness for C8: the spec's rejection scenario — an edge `(0, 99)` in the
table of the pair `(0, 1)` when type 1 has only 3 nodes is reported as a
dangling target of the pair `(0, 1)`. -/
theorem claim_C8_witness :
    check_size_x ⟨2, [2, 3], [1, 1], [[1, 1], [1, 1, 1]]⟩
        ⟨[some ⟨[[0]], 1, by decide⟩, some ⟨[[0], [0], [0]], 1, by decide⟩],
          [none, some ⟨[[0, 99]], 2, by decide⟩, none, none]⟩ =
      .error (.danglingTarget 0 1) ∧
    (∃ t1, t1 < TypedCRF.n_types ⟨2, [2, 3], [1, 1], [[1, 1], [1, 1, 1]]⟩ ∧
      ∃ t2, t2 < TypedCRF.n_types ⟨2, [2, 3], [1, 1], [[1, 1], [1, 1, 1]]⟩ ∧ ∃ e,
      check_size_x ⟨2, [2, 3], [1, 1], [[1, 1], [1, 1, 1]]⟩
          ⟨[some ⟨[[0]], 1, by decide⟩, some ⟨[[0], [0], [0]], 1, by decide⟩],
            [none, some ⟨[[0, 99]], 2, by decide⟩, none, none]⟩ = .error e ∧
      pairCheck ⟨2, [2, 3], [1, 1], [[1, 1], [1, 1, 1]]⟩
          ⟨[some ⟨[[0]], 1, by decide⟩, some ⟨[[0], [0], [0]], 1, by decide⟩],
            [none, some ⟨[[0, 99]], 2, by decide⟩, none, none]⟩ t1 t2 = some e ∧
      pairViolationB ⟨2, [2, 3], [1, 1], [[1, 1], [1, 1, 1]]⟩
          ⟨[some ⟨[[0]], 1, by decide⟩, some ⟨[[0], [0], [0]], 1, by decide⟩],
            [none, some ⟨[[0, 99]], 2, by decide⟩, none, none]⟩ t1 t2 = true ∧
      (e = .negativeEdgeIndex t1 t2 ∨ e = .danglingSource t1 t2 ∨
        e = .danglingTarget t1 t2)) :=
  ⟨by decide,
   claim_C8 _ _ (by decide) (by decide) ⟨0, by decide, 1, by decide, by decide⟩⟩

/-! ### Label validation (C3, C4) -/

theorem runSlice_zero (counts : List ℕ) (Y : List ℤ) (j : ℕ) :
    runSlice counts Y 0 j = typeRun counts Y j := by
  simp [runSlice, typeRun]

theorem labelRunCheck_cons_none_iff (m : TypedCRF) (typ : ℕ) (y : ℤ) (ys : List ℤ) :
    labelRunCheck m typ (y :: ys) = none ↔
      ¬(foldMin y ys < 0) ∧ ¬(foldMin y ys < (m.typeStart typ : ℤ)) ∧
      ¬((m.typeStart (typ + 1) : ℤ) ≤ foldMax y ys) := by
  unfold labelRunCheck
  show (if foldMin y ys < 0 then some (CheckErr.negativeLabel typ)
    else if foldMin y ys < (m.typeStart typ : ℤ) then some (CheckErr.labelBelowRange typ)
    else if foldMax y ys ≥ (m.typeStart (typ + 1) : ℤ) then some (CheckErr.labelAboveRange typ)
    else none) = none ↔ _
  split_ifs with h1 h2 h3 <;> simp_all [ge_iff_le]

theorem labelRunCheck_none_nonneg (m : TypedCRF) (typ : ℕ) (run : List ℤ)
    (h : labelRunCheck m typ run = none) : ∀ z ∈ run, 0 ≤ z := by
  cases run with
  | nil => intro z hz; cases hz
  | cons y ys =>
      rw [labelRunCheck_cons_none_iff] at h
      have := h.1
      rw [foldMin_lt_iff] at this
      push_neg at this
      intro z hz
      rcases List.mem_cons.mp hz with rfl | hz'
      · exact this.1
      · exact this.2 z hz'

/-- Dichotomy of the label loop over the zipped triple list: either every run
check passes and the loop returns nothing, or the loop returns the error of
the first failing run. -/
theorem labelLoop_cases (m : TypedCRF) :
    ∀ (n t0 i0 : ℕ) (cl : List (Arr2 ℚ)) (st : List ℕ) (Y : List ℤ),
    cl.length = n → st.length = n →
    (labelLoop m ((List.range' t0 n).zip (cl.zip st)) i0 Y = none ∧
      ∀ j < n, labelRunCheck m (t0 + j)
        (runSlice (cl.map fun a => a.rows.length) Y i0 j) = none) ∨
    (∃ j < n, ∃ e, labelLoop m ((List.range' t0 n).zip (cl.zip st)) i0 Y = some e ∧
      labelRunCheck m (t0 + j)
        (runSlice (cl.map fun a => a.rows.length) Y i0 j) = some e ∧
      ∀ i < j, labelRunCheck m (t0 + i)
        (runSlice (cl.map fun a => a.rows.length) Y i0 i) = none) := by
  intro n
  induction n with
  | zero =>
      intro t0 i0 cl st Y hcl hst
      left
      constructor
      · rfl
      · intro j hj
        omega
  | succ n' ih =>
      intro t0 i0 cl st Y hcl hst
      cases cl with
      | nil => simp at hcl
      | cons c cl' =>
          cases st with
          | nil => simp at hst
          | cons s st' =>
              rw [List.range'_succ t0 n' 1]
              have hzip : (t0 :: List.range' (t0 + 1) n').zip ((c :: cl').zip (s :: st')) =
                  (t0, c, s) :: (List.range' (t0 + 1) n').zip (cl'.zip st') := rfl
              rw [hzip]
              have hrun0 : runSlice ((c :: cl').map fun a => a.rows.length) Y i0 0 =
                  (Y.drop i0).take c.rows.length := by
                simp [runSlice]
              cases hc : labelRunCheck m t0 ((Y.drop i0).take c.rows.length) with
              | some e =>
                  right
                  refine ⟨0, by omega, e, ?_, ?_, ?_⟩
                  · show (match labelRunCheck m t0 ((Y.drop i0).take c.rows.length) with
                      | some e => some e
                      | none => labelLoop m ((List.range' (t0 + 1) n').zip (cl'.zip st'))
                          (i0 + c.rows.length) Y) = some e
                    rw [hc]
                  · rw [hrun0, Nat.add_zero, hc]
                  · intro i hi
                    omega
              | none =>
                  have hstep : labelLoop m
                      ((t0, c, s) :: (List.range' (t0 + 1) n').zip (cl'.zip st')) i0 Y =
                      labelLoop m ((List.range' (t0 + 1) n').zip (cl'.zip st'))
                        (i0 + c.rows.length) Y := by
                    show (match labelRunCheck m t0 ((Y.drop i0).take c.rows.length) with
                      | some e => some e
                      | none => labelLoop m ((List.range' (t0 + 1) n').zip (cl'.zip st'))
                          (i0 + c.rows.length) Y) = _
                    rw [hc]
                  have hshift : ∀ j, runSlice (cl'.map fun a => a.rows.length) Y
                      (i0 + c.rows.length) j =
                      runSlice ((c :: cl').map fun a => a.rows.length) Y i0 (j + 1) := by
                    intro j
                    unfold runSlice
                    rw [List.map_cons, List.take_succ_cons, List.sum_cons,
                      List.getD_cons_succ]
                    congr 2
                    omega
                  rcases ih (t0 + 1) (i0 + c.rows.length) cl' st' Y
                      (by simpa using hcl) (by simpa using hst) with
                    ⟨hnone, hall⟩ | ⟨j, hj, e, hloop, hfail, hbefore⟩
                  · left
                    refine ⟨by rw [hstep]; exact hnone, ?_⟩
                    intro j hj
                    cases j with
                    | zero =>
                        rw [hrun0, Nat.add_zero]
                        exact hc
                    | succ j' =>
                        rw [← hshift j', show t0 + (j' + 1) = (t0 + 1) + j' by omega]
                        exact hall j' (by omega)
                  · right
                    refine ⟨j + 1, by omega, e, by rw [hstep]; exact hloop, ?_, ?_⟩
                    · rw [← hshift j, show t0 + (j + 1) = (t0 + 1) + j by omega]
                      exact hfail
                    · intro i hi
                      cases i with
                      | zero =>
                          rw [hrun0, Nat.add_zero]
                          exact hc
                      | succ i' =>
                          rw [← hshift i', show t0 + (i' + 1) = (t0 + 1) + i' by omega]
                          exact hbefore i' (by omega)

/-- Every label is covered by the run of some type when the label count is
exactly the total node count. -/
theorem mem_some_run (counts : List ℕ) (Y : List ℤ) (hY : Y.length = counts.sum) :
    ∀ y ∈ Y, ∃ j < counts.length, y ∈ runSlice counts Y 0 j := by
  intro y hy
  obtain ⟨p, hp, hyp⟩ := List.mem_iff_getElem.mp hy
  obtain ⟨j, hj, hj1, hj2⟩ := prefix_find counts p (by omega)
  refine ⟨j, hj, ?_⟩
  have hidx : (runSlice counts Y 0 j)[p - (counts.take j).sum]? = some y := by
    unfold runSlice
    rw [List.getElem?_take, if_pos (by omega : p - (counts.take j).sum < counts.getD j 0),
      List.getElem?_drop]
    rw [show 0 + (counts.take j).sum + (p - (counts.take j).sum) = p by omega]
    rw [List.getElem?_eq_getElem hp, hyp]
  exact List.getElem?_mem hidx

theorem runSlice_subset (counts : List ℕ) (Y : List ℤ) (i0 j : ℕ) :
    ∀ z ∈ runSlice counts Y i0 j, z ∈ Y := by
  intro z hz
  unfold runSlice at hz
  exact List.drop_subset _ _ (List.take_subset _ _ hz)

theorem runSlice_length (counts : List ℕ) (Y : List ℤ) (j : ℕ)
    (hj : j < counts.length) (hY : Y.length = counts.sum) :
    (runSlice counts Y 0 j).length = counts.getD j 0 := by
  unfold runSlice
  rw [List.length_take, List.length_drop]
  have h1 : (counts.take (j + 1)).sum ≤ counts.sum := take_sum_le counts (j + 1)
  have h2 := take_sum_succ counts j hj
  omega

theorem foldMin_cons_lt (z : ℤ) (zs : List ℤ) (c : ℤ) :
    foldMin z zs < c ↔ ∃ w ∈ z :: zs, w < c := by
  rw [foldMin_lt_iff]
  simp

theorem foldMax_cons_le (z : ℤ) (zs : List ℤ) (c : ℤ) :
    c ≤ foldMax z zs ↔ ∃ w ∈ z :: zs, c ≤ w := by
  rw [le_foldMax_iff]
  simp

theorem labelRunCheck_some_kinds (m : TypedCRF) (typ : ℕ) (z : ℤ) (zs : List ℤ)
    (e : CheckErr) (hpos : ∀ w ∈ z :: zs, 0 ≤ w)
    (h : labelRunCheck m typ (z :: zs) = some e) :
    e = .labelBelowRange typ ∨ e = .labelAboveRange typ := by
  have heq : labelRunCheck m typ (z :: zs) =
      (if foldMin z zs < 0 then some (CheckErr.negativeLabel typ)
      else if foldMin z zs < (m.typeStart typ : ℤ) then some (CheckErr.labelBelowRange typ)
      else if foldMax z zs ≥ (m.typeStart (typ + 1) : ℤ) then
        some (CheckErr.labelAboveRange typ)
      else none) := rfl
  rw [heq] at h
  split_ifs at h with h1 h2 h3
  · exfalso
    obtain ⟨w, hw, hw0⟩ := (foldMin_cons_lt z zs 0).mp h1
    have := hpos w hw
    omega
  · injection h with h
    exact Or.inl h.symm
  · injection h with h
    exact Or.inr h.symm

theorem bounds_of_labelRunCheck_none (m : TypedCRF) (typ : ℕ) (z : ℤ) (zs : List ℤ)
    (h : labelRunCheck m typ (z :: zs) = none) :
    ∀ w ∈ z :: zs, (m.typeStart typ : ℤ) ≤ w ∧ w < (m.typeStart (typ + 1) : ℤ) := by
  rw [labelRunCheck_cons_none_iff] at h
  obtain ⟨-, h2, h3⟩ := h
  rw [foldMin_cons_lt] at h2
  rw [foldMax_cons_le] at h3
  push_neg at h2 h3
  exact fun w hw => ⟨h2 w hw, h3 w hw⟩

theorem labelRunCheck_none_of_bounds (m : TypedCRF) (typ : ℕ) (z : ℤ) (zs : List ℤ)
    (hb : ∀ w ∈ z :: zs, (m.typeStart typ : ℤ) ≤ w ∧ w < (m.typeStart (typ + 1) : ℤ)) :
    labelRunCheck m typ (z :: zs) = none := by
  rw [labelRunCheck_cons_none_iff]
  refine ⟨?_, ?_, ?_⟩
  · rw [foldMin_cons_lt]
    push_neg
    intro w hw
    have h0 : (0 : ℤ) ≤ (m.typeStart typ : ℤ) := by positivity
    have := (hb w hw).1
    omega
  · rw [foldMin_cons_lt]
    push_neg
    exact fun w hw => (hb w hw).1
  · rw [foldMax_cons_le]
    push_neg
    exact fun w hw => (hb w hw).2

/-- Dichotomy of `_check_size_xy` on a well-sized label vector: `True` with
every run check passing, or the first failing run's error. -/
theorem check_size_xy_cases (m : TypedCRF) (x : Instance) (Y : List ℤ)
    (h1 : validSchema m) (h2 : validInstance m x)
    (hY : Y.length = (instCounts m x).sum) :
    (check_size_xy m x Y = .ok true ∧
      ∀ j < m.n_types, labelRunCheck m j (typeRun (instCounts m x) Y j) = none) ∨
    (∃ j < m.n_types, ∃ e, check_size_xy m x Y = .error e ∧
      labelRunCheck m j (typeRun (instCounts m x) Y j) = some e ∧
      ∀ i < j, labelRunCheck m i (typeRun (instCounts m x) Y i) = none) := by
  have hclen : (getNodeFeaturesClean m x).length = m.n_types := by
    rw [clean_length, h2.1.1, h1.2, Nat.min_self]
  have hcheck : check_size_xy m x Y =
      (match labelLoop m ((List.range' 0 m.n_types).zip
          ((getNodeFeaturesClean m x).zip m.l_n_states)) 0 Y with
        | some e => .error e
        | none => .ok true) := by
    simp only [check_size_xy]
    rw [if_neg (show ¬Y.length ≠
      (List.map (fun a => a.rows.length) (getNodeFeaturesClean m x)).sum from
        not_not_intro hY), List.range_eq_range']
  rcases labelLoop_cases m m.n_types 0 0 (getNodeFeaturesClean m x) m.l_n_states Y
      hclen h1.1 with
    ⟨hnone, hall⟩ | ⟨j, hj, e, hloop, hfail, hbefore⟩
  · left
    refine ⟨by rw [hcheck, hnone], ?_⟩
    intro j hj
    have h := hall j hj
    rwa [Nat.zero_add, runSlice_zero] at h
  · right
    refine ⟨j, hj, e, by rw [hcheck, hloop], ?_, ?_⟩
    · have h := hfail
      rwa [Nat.zero_add, runSlice_zero] at h
    · intro i hi
      have h := hbefore i hi
      rwa [Nat.zero_add, runSlice_zero] at h

theorem instCounts_length (m : TypedCRF) (x : Instance)
    (h1 : validSchema m) (h2 : validInstance m x) :
    (instCounts m x).length = m.n_types := by
  unfold instCounts
  rw [List.length_map, clean_length, h2.1.1, h1.2, Nat.min_self]

/-- Counterexample to C3 as stated: with a type that has zero nodes in the
instance, an out-of-range label in a later run does not raise
`InconsistentLabel` — `np.min` on the empty first run raises a plain numpy
`ValueError` before the range checks are reached. -/
theorem claim_C3_counterexample :
    labelViolation ⟨2, [2, 3], [1, 1], [[1, 1], [1, 1, 1]]⟩
        ⟨[some ⟨[], 1, by decide⟩, some ⟨[[0]], 1, by decide⟩],
          [none, none, none, none]⟩ [0] ∧
    (∀ y ∈ ([0] : List ℤ), 0 ≤ y) ∧
    ([0] : List ℤ).length =
      (instCounts ⟨2, [2, 3], [1, 1], [[1, 1], [1, 1, 1]]⟩
        ⟨[some ⟨[], 1, by decide⟩, some ⟨[[0]], 1, by decide⟩],
          [none, none, none, none]⟩).sum ∧
    check_size_xy ⟨2, [2, 3], [1, 1], [[1, 1], [1, 1, 1]]⟩
        ⟨[some ⟨[], 1, by decide⟩, some ⟨[[0]], 1, by decide⟩],
          [none, none, none, none]⟩ [0] = .error (.emptyLabelRun 0) ∧
    CheckErr.exc (.emptyLabelRun 0) ≠ PyExc.inconsistentLabel :=
  ⟨by decide, by decide, by decide, by decide, by decide⟩

/-- C3 (amended): on a structurally valid instance in which *every type has
at least one node*, with a well-sized, non-negative label vector,
`_check_size_xy` raises `InconsistentLabel` exactly when some type's label
run contains a value below `type_label_bounds[t]` or at/above
`type_label_bounds[t+1]`, and returns `True` otherwise. -/
theorem claim_C3 (m : TypedCRF) (x : Instance) (Y : List ℤ)
    (h1 : validSchema m) (h2 : validInstance m x)
    (hY : Y.length = (instCounts m x).sum)
    (hpos : ∀ y ∈ Y, 0 ≤ y)
    (hne : ∀ t < m.n_types, 0 < (instCounts m x).getD t 0) :
    (labelViolation m x Y →
      ∃ e, check_size_xy m x Y = .error e ∧ CheckErr.exc e = .inconsistentLabel) ∧
    (¬labelViolation m x Y → check_size_xy m x Y = .ok true) := by
  have hclen := instCounts_length m x h1 h2
  have hrunlen : ∀ j < m.n_types,
      (typeRun (instCounts m x) Y j).length = (instCounts m x).getD j 0 := by
    intro j hj
    rw [← runSlice_zero]
    exact runSlice_length (instCounts m x) Y j (by omega) hY
  have hruncons : ∀ j < m.n_types, ∃ z zs, typeRun (instCounts m x) Y j = z :: zs := by
    intro j hj
    have hlen := hrunlen j hj
    have hpos' := hne j hj
    cases hr : typeRun (instCounts m x) Y j with
    | nil =>
        rw [hr, List.length_nil] at hlen
        omega
    | cons z zs => exact ⟨z, zs, rfl⟩
  have hrunpos : ∀ j, ∀ w ∈ typeRun (instCounts m x) Y j, 0 ≤ w := by
    intro j w hw
    rw [← runSlice_zero] at hw
    exact hpos w (runSlice_subset _ _ _ _ w hw)
  constructor
  · intro hviol
    rcases check_size_xy_cases m x Y h1 h2 hY with ⟨-, hall⟩ | ⟨j, hjn, e, herr, hfail, -⟩
    · exfalso
      obtain ⟨t, ht, y, hyin, hyviol⟩ := hviol
      obtain ⟨z, zs, hzz⟩ := hruncons t ht
      have hnone := hall t ht
      rw [hzz] at hnone hyin
      have hb := bounds_of_labelRunCheck_none m t z zs hnone y hyin
      rcases hyviol with h | h
      · omega
      · omega
    · obtain ⟨z, zs, hzz⟩ := hruncons j hjn
      rw [hzz] at hfail
      have hkinds := labelRunCheck_some_kinds m j z zs e
        (fun w hw => hrunpos j w (hzz ▸ hw)) hfail
      refine ⟨e, herr, ?_⟩
      rcases hkinds with rfl | rfl
      · rfl
      · rfl
  · intro hnov
    rcases check_size_xy_cases m x Y h1 h2 hY with ⟨hok, -⟩ | ⟨j, hjn, e, herr, hfail, -⟩
    · exact hok
    · exfalso
      obtain ⟨z, zs, hzz⟩ := hruncons j hjn
      have hb : ∀ w ∈ z :: zs, (m.typeStart j : ℤ) ≤ w ∧ w < (m.typeStart (j + 1) : ℤ) := by
        intro w hw
        by_contra hcon
        push_neg at hcon
        refine hnov ⟨j, hjn, w, hzz ▸ hw, ?_⟩
        rcases lt_or_ge w (m.typeStart j : ℤ) with h | h
        · exact Or.inl h
        · exact Or.inr (hcon h)
      rw [hzz, labelRunCheck_none_of_bounds m j z zs hb] at hfail
      exact absurd hfail (by simp)

/-- Witness for C3: the spec's scenario — labels `[0,1,2,4,3]` are accepted,
labels `[0,1,1,4,3]` raise `InconsistentLabel`. -/
theorem claim_C3_witness :
    check_size_xy ⟨2, [2, 3], [1, 1], [[1, 1], [1, 1, 1]]⟩
        ⟨[some ⟨[[0], [0]], 1, by decide⟩, some ⟨[[0], [0], [0]], 1, by decide⟩],
          [none, none, none, none]⟩ [0, 1, 2, 4, 3] = .ok true ∧
    ∃ e, check_size_xy ⟨2, [2, 3], [1, 1], [[1, 1], [1, 1, 1]]⟩
        ⟨[some ⟨[[0], [0]], 1, by decide⟩, some ⟨[[0], [0], [0]], 1, by decide⟩],
          [none, none, none, none]⟩ [0, 1, 1, 4, 3] = .error e ∧
      CheckErr.exc e = .inconsistentLabel :=
  ⟨(claim_C3 _ _ _ (by decide) (by decide) (by decide) (by decide) (by decide)).2
      (by decide),
   (claim_C3 _ _ _ (by decide) (by decide) (by decide) (by decide) (by decide)).1
      (by decide)⟩

/-- Counterexample to C4 as stated: a negative label is rejected with a plain
`ValueError` (line 200, "Got a negative label"), not with the
`InconsistentLabel` exception class. -/
theorem claim_C4_counterexample :
    check_size_xy ⟨1, [1], [1], [[1]]⟩ ⟨[some ⟨[[0]], 1, by decide⟩], [none]⟩ [-1] =
      .error (.negativeLabel 0) ∧
    CheckErr.exc (.negativeLabel 0) ≠ PyExc.inconsistentLabel :=
  ⟨by decide, by decide⟩

/-- C4 (amended): a well-sized label vector containing a negative value is
always rejected by `_check_size_xy` — but the error raised by the negative
check itself is a `ValueError`, not `InconsistentLabel`. -/
theorem claim_C4 (m : TypedCRF) (x : Instance) (Y : List ℤ)
    (h1 : validSchema m) (h2 : validInstance m x)
    (hY : Y.length = (instCounts m x).sum)
    (hneg : ∃ y ∈ Y, y < 0) :
    ∃ e, check_size_xy m x Y = .error e := by
  rcases check_size_xy_cases m x Y h1 h2 hY with ⟨-, hall⟩ | ⟨j, hj, e, herr, -, -⟩
  · exfalso
    obtain ⟨y, hy, hyneg⟩ := hneg
    obtain ⟨j, hj, hyin⟩ := mem_some_run (instCounts m x) Y hY y hy
    have hjn : j < m.n_types := by
      have := instCounts_length m x h1 h2
      omega
    rw [runSlice_zero] at hyin
    have := labelRunCheck_none_nonneg m j _ (hall j hjn) y hyin
    omega
  · exact ⟨e, herr⟩

/-- Witness for C4 at a concrete negative label vector. -/
theorem claim_C4_witness :
    ∃ e, check_size_xy ⟨1, [1], [1], [[1]]⟩
      ⟨[some ⟨[[0]], 1, by decide⟩], [none]⟩ [-1] = .error e :=
  claim_C4 _ _ _ (by decide) (by decide) (by decide) ⟨-1, by decide, by decide⟩

/-! ### Edge-state offsets (C7) -/

theorem sum_map_mul_right (s : List ℕ) (a : ℕ) :
    (s.map (fun n => n * a)).sum = s.sum * a := by
  induction s with
  | nil => simp
  | cons x xs ih => simp [ih, Nat.add_mul]

theorem sum_map_mul_left (s : List ℕ) (a : ℕ) :
    (s.map (fun n => a * n)).sum = a * s.sum := by
  induction s with
  | nil => simp
  | cons x xs ih => simp [ih, Nat.mul_add]

theorem getD_map_eq (f : ℕ → ℕ) (s : List ℕ) (t : ℕ) (ht : t < s.length) :
    (s.map f).getD t 0 = f (s.getD t 0) := by
  rw [List.getD_eq_getElem?_getD, List.getElem?_map, List.getElem?_eq_getElem ht,
    List.getD_eq_getElem?_getD, List.getElem?_eq_getElem ht]
  rfl

theorem edgeStartRow_snd (n1 : ℕ) :
    ∀ (l : List ℕ) (c : ℕ), (edgeStartRow n1 l c).2 = c + n1 * l.sum := by
  intro l
  induction l with
  | nil => intro c; simp [edgeStartRow]
  | cons n2 t ih =>
      intro c
      show (edgeStartRow n1 t (c + n1 * n2)).2 = _
      rw [ih, List.sum_cons, Nat.mul_add]
      omega

theorem edgeStartRow_length (n1 : ℕ) :
    ∀ (l : List ℕ) (c : ℕ), (edgeStartRow n1 l c).1.length = l.length := by
  intro l
  induction l with
  | nil => intro c; rfl
  | cons n2 t ih =>
      intro c
      show (c % 2 ^ 32 :: (edgeStartRow n1 t (c + n1 * n2)).1).length = _
      rw [List.length_cons, ih]
      rfl

theorem edgeStartRow_getD (n1 : ℕ) :
    ∀ (l : List ℕ) (c j : ℕ), j < l.length →
    (edgeStartRow n1 l c).1.getD j 0 = (c + n1 * (l.take j).sum) % 2 ^ 32 := by
  intro l
  induction l with
  | nil => intro c j hj; simp at hj
  | cons n2 t ih =>
      intro c j hj
      cases j with
      | zero => simp [edgeStartRow]
      | succ j' =>
          show (c % 2 ^ 32 :: (edgeStartRow n1 t (c + n1 * n2)).1).getD (j' + 1) 0 = _
          rw [List.getD_cons_succ, ih (c + n1 * n2) j' (by simpa using hj),
            List.take_succ_cons, List.sum_cons, Nat.mul_add]
          congr 1
          omega

theorem edgeStartRows_getD (all : List ℕ) :
    ∀ (l : List ℕ) (c i : ℕ), i < l.length →
    (edgeStartRows all l c).1.getD i [] =
      (edgeStartRow (l.getD i 0) all (c + (l.take i).sum * all.sum)).1 := by
  intro l
  induction l with
  | nil => intro c i hi; simp at hi
  | cons n1 t ih =>
      intro c i hi
      cases i with
      | zero =>
          show ((edgeStartRow n1 all c).1 :: (edgeStartRows all t _).1).getD 0 [] = _
          rw [List.getD_cons_zero]
          simp
      | succ i' =>
          show ((edgeStartRow n1 all c).1 ::
              (edgeStartRows all t (edgeStartRow n1 all c).2).1).getD (i' + 1) [] = _
          rw [List.getD_cons_succ, ih _ i' (by simpa using hi), edgeStartRow_snd,
            List.getD_cons_succ, List.take_succ_cons, List.sum_cons, Nat.add_mul]
          congr 2
          omega

/-- Closed form of `a_startindex_by_typ_typ[t1, t2]`: the row-major running
offset, stored reduced mod `2 ^ 32` by the `uint32` matrix. -/
theorem startIdxTT_eq (m : TypedCRF) (t1 t2 : ℕ)
    (h1 : t1 < m.l_n_states.length) (h2 : t2 < m.l_n_states.length) :
    m.startIdxTT t1 t2 =
      ((m.l_n_states.take t1).sum * m.l_n_states.sum +
        m.l_n_states.getD t1 0 * (m.l_n_states.take t2).sum) % 2 ^ 32 := by
  unfold TypedCRF.startIdxTT TypedCRF.a_startindex_by_typ_typ
  rw [edgeStartRows_getD m.l_n_states m.l_n_states 0 t1 h1,
    edgeStartRow_getD _ _ _ t2 h2]
  congr 1
  omega

/-- Every running offset (plus its own block) stays within
`total_edge_states = sum * sum`. -/
theorem offset_le_total (m : TypedCRF) (t1 t2 : ℕ)
    (h1 : t1 < m.l_n_states.length) :
    (m.l_n_states.take t1).sum * m.l_n_states.sum +
      m.l_n_states.getD t1 0 * (m.l_n_states.take t2).sum ≤
      m.l_n_states.sum * m.l_n_states.sum := by
  have hA : m.l_n_states.getD t1 0 * (m.l_n_states.take t2).sum ≤
      m.l_n_states.getD t1 0 * m.l_n_states.sum :=
    Nat.mul_le_mul_left _ (take_sum_le m.l_n_states t2)
  have hp : (m.l_n_states.take (t1 + 1)).sum ≤ m.l_n_states.sum :=
    take_sum_le m.l_n_states (t1 + 1)
  rw [take_sum_succ m.l_n_states t1 h1] at hp
  have hB : ((m.l_n_states.take t1).sum + m.l_n_states.getD t1 0) * m.l_n_states.sum ≤
      m.l_n_states.sum * m.l_n_states.sum :=
    Nat.mul_le_mul_right _ hp
  rw [Nat.add_mul] at hB
  omega

/-- When the flattened edge-state space fits in 32 bits, no stored offset
wraps, and the closed form holds without the reduction. -/
theorem startIdxTT_eq_of_small (m : TypedCRF) (t1 t2 : ℕ)
    (h1 : t1 < m.l_n_states.length) (h2 : t2 < m.l_n_states.length)
    (hw : m.l_n_states.sum * m.l_n_states.sum < 2 ^ 32) :
    m.startIdxTT t1 t2 =
      (m.l_n_states.take t1).sum * m.l_n_states.sum +
        m.l_n_states.getD t1 0 * (m.l_n_states.take t2).sum := by
  rw [startIdxTT_eq m t1 t2 h1 h2,
    Nat.mod_eq_of_lt (lt_of_le_of_lt (offset_le_total m t1 t2 h1) hw)]

/-- Closed form of the row-major preceding-pairs sum. -/
theorem rowMajorPrior_eq (s : List ℕ) (t1 t2 : ℕ) (h1 : t1 ≤ s.length) (h2 : t2 ≤ s.length) :
    rowMajorPrior s t1 t2 =
      (s.take t1).sum * s.sum + s.getD t1 0 * (s.take t2).sum := by
  unfold rowMajorPrior
  have hsum : ∀ i : ℕ, (∑ j ∈ Finset.range s.length, s.getD i 0 * s.getD j 0) =
      s.getD i 0 * s.sum := by
    intro i
    rw [← Finset.mul_sum]
    congr 1
    rw [← take_sum_getD s s.length (le_refl _), List.take_length]
  have h1' : (∑ i ∈ Finset.range t1, ∑ j ∈ Finset.range s.length,
      s.getD i 0 * s.getD j 0) = (s.take t1).sum * s.sum := by
    rw [Finset.sum_congr rfl (fun i _ => hsum i), ← Finset.sum_mul]
    congr 1
    rw [take_sum_getD s t1 h1]
  have h2' : (∑ j ∈ Finset.range t2, s.getD t1 0 * s.getD j 0) =
      s.getD t1 0 * (s.take t2).sum := by
    rw [← Finset.mul_sum]
    congr 1
    rw [take_sum_getD s t2 h2]
  rw [h1', h2']

theorem totalEdgeStates_eq (m : TypedCRF) :
    m.totalEdgeStates = m.l_n_states.sum * m.l_n_states.sum := by
  unfold TypedCRF.totalEdgeStates TypedCRF.l_n_edge_states
  rw [List.sum_flatten, List.map_map]
  have : (List.sum ∘ fun n1 => m.l_n_states.map (fun n2 => n1 * n2)) =
      fun n1 => n1 * m.l_n_states.sum := by
    funext n1
    exact sum_map_mul_left m.l_n_states n1
  rw [this, sum_map_mul_right]

/-- Ranges with ordered starts are disjoint. -/
theorem ranges_disjoint_of_le {a c a' c' : ℕ} (h : a + c ≤ a') :
    ∀ k, ¬(a ≤ k ∧ k < a + c ∧ a' ≤ k ∧ k < a' + c') := by
  intro k
  omega

/-- Row-major ordering of the reserved ranges: a lexicographically earlier
pair's range ends no later than a later pair's range begins. -/
theorem startIdxTT_ordered (m : TypedCRF) {t1 t2 u1 u2 : ℕ}
    (ht1 : t1 < m.l_n_states.length) (ht2 : t2 < m.l_n_states.length)
    (hu1 : u1 < m.l_n_states.length) (hu2 : u2 < m.l_n_states.length)
    (hw : m.l_n_states.sum * m.l_n_states.sum < 2 ^ 32)
    (hlt : (t1 = u1 ∧ t2 < u2) ∨ t1 < u1) :
    m.startIdxTT t1 t2 + m.l_n_states.getD t1 0 * m.l_n_states.getD t2 0 ≤
      m.startIdxTT u1 u2 := by
  rw [startIdxTT_eq_of_small m t1 t2 ht1 ht2 hw, startIdxTT_eq_of_small m u1 u2 hu1 hu2 hw]
  rcases hlt with ⟨rfl, hlt2⟩ | hlt1
  · have hq : (m.l_n_states.take (t2 + 1)).sum ≤ (m.l_n_states.take u2).sum :=
      take_sum_mono m.l_n_states hlt2
    rw [take_sum_succ m.l_n_states t2 ht2] at hq
    have hmul := Nat.mul_le_mul_left (m.l_n_states.getD t1 0) hq
    rw [Nat.mul_add] at hmul
    omega
  · have hq2 : (m.l_n_states.take (t2 + 1)).sum ≤ m.l_n_states.sum :=
      take_sum_le m.l_n_states (t2 + 1)
    rw [take_sum_succ m.l_n_states t2 ht2] at hq2
    have hA : m.l_n_states.getD t1 0 *
        ((m.l_n_states.take t2).sum + m.l_n_states.getD t2 0) ≤
        m.l_n_states.getD t1 0 * m.l_n_states.sum :=
      Nat.mul_le_mul_left _ hq2
    rw [Nat.mul_add] at hA
    have hp : (m.l_n_states.take (t1 + 1)).sum ≤ (m.l_n_states.take u1).sum :=
      take_sum_mono m.l_n_states hlt1
    rw [take_sum_succ m.l_n_states t1 ht1] at hp
    have hB : ((m.l_n_states.take t1).sum + m.l_n_states.getD t1 0) * m.l_n_states.sum ≤
        (m.l_n_states.take u1).sum * m.l_n_states.sum :=
      Nat.mul_le_mul_right _ hp
    rw [Nat.add_mul] at hB
    omega

/-- C7 (amended): for a schema whose `total_edge_states` fits in 32 bits —
so none of the offsets stored into the `np.uint32` matrix wraps — each
`a_startindex_by_typ_typ[t1][t2]` equals the row-major sum of
`states[i]*states[j]` over the preceding ordered pairs, and the reserved
ranges `[offset, offset + states(t1)*states(t2))` are pairwise disjoint and
exactly tile `[0, total_edge_states)`.  (Beyond `2 ^ 32` the stored offsets
wrap and both properties fail; see the counterexample.) -/
theorem claim_C7 (m : TypedCRF) (h : m.l_n_states.length = m.n_types)
    (hw : m.totalEdgeStates < 2 ^ 32) :
    (∀ t1 < m.n_types, ∀ t2 < m.n_types,
      m.startIdxTT t1 t2 = rowMajorPrior m.l_n_states t1 t2) ∧
    (∀ k, k < m.totalEdgeStates ↔ ∃ t1 < m.n_types, ∃ t2 < m.n_types,
      m.startIdxTT t1 t2 ≤ k ∧
      k < m.startIdxTT t1 t2 + m.l_n_states.getD t1 0 * m.l_n_states.getD t2 0) ∧
    (∀ t1 < m.n_types, ∀ t2 < m.n_types, ∀ u1 < m.n_types, ∀ u2 < m.n_types,
      (t1, t2) ≠ (u1, u2) → ∀ k,
      ¬(m.startIdxTT t1 t2 ≤ k ∧
        k < m.startIdxTT t1 t2 + m.l_n_states.getD t1 0 * m.l_n_states.getD t2 0 ∧
        m.startIdxTT u1 u2 ≤ k ∧
        k < m.startIdxTT u1 u2 + m.l_n_states.getD u1 0 * m.l_n_states.getD u2 0)) := by
  have hw' : m.l_n_states.sum * m.l_n_states.sum < 2 ^ 32 := by
    rw [← totalEdgeStates_eq]
    exact hw
  refine ⟨?_, ?_, ?_⟩
  · intro t1 ht1 t2 ht2
    rw [startIdxTT_eq_of_small m t1 t2 (by omega) (by omega) hw',
      rowMajorPrior_eq m.l_n_states t1 t2 (by omega) (by omega)]
  · intro k
    constructor
    · intro hk
      rw [totalEdgeStates_eq] at hk
      have hk' : k < (m.l_n_states.map (fun n => n * m.l_n_states.sum)).sum := by
        rw [sum_map_mul_right]
        exact hk
      obtain ⟨t1, ht1, hp1, hp2⟩ := prefix_find _ k hk'
      rw [List.length_map] at ht1
      rw [← List.map_take, sum_map_mul_right] at hp1
      rw [← List.map_take, sum_map_mul_right, getD_map_eq _ m.l_n_states t1 ht1] at hp2
      have hr' : k - (m.l_n_states.take t1).sum * m.l_n_states.sum <
          (m.l_n_states.map (fun n => m.l_n_states.getD t1 0 * n)).sum := by
        rw [sum_map_mul_left]
        omega
      obtain ⟨t2, ht2, hq1, hq2⟩ := prefix_find _ _ hr'
      rw [List.length_map] at ht2
      rw [← List.map_take, sum_map_mul_left] at hq1
      rw [← List.map_take, sum_map_mul_left, getD_map_eq _ m.l_n_states t2 ht2] at hq2
      refine ⟨t1, by omega, t2, by omega, ?_, ?_⟩
      · rw [startIdxTT_eq_of_small m t1 t2 ht1 ht2 hw']
        omega
      · rw [startIdxTT_eq_of_small m t1 t2 ht1 ht2 hw']
        omega
    · rintro ⟨t1, ht1, t2, ht2, hlo, hhi⟩
      rw [startIdxTT_eq_of_small m t1 t2 (by omega) (by omega) hw'] at hhi
      rw [totalEdgeStates_eq]
      have hq2 : (m.l_n_states.take (t2 + 1)).sum ≤ m.l_n_states.sum := take_sum_le m.l_n_states (t2 + 1)
      rw [take_sum_succ m.l_n_states t2 (by omega)] at hq2
      have hA : m.l_n_states.getD t1 0 * ((m.l_n_states.take t2).sum + m.l_n_states.getD t2 0) ≤ m.l_n_states.getD t1 0 * m.l_n_states.sum :=
        Nat.mul_le_mul_left _ hq2
      rw [Nat.mul_add] at hA
      have hp2 : (m.l_n_states.take (t1 + 1)).sum ≤ m.l_n_states.sum := take_sum_le m.l_n_states (t1 + 1)
      rw [take_sum_succ m.l_n_states t1 (by omega)] at hp2
      have hB : ((m.l_n_states.take t1).sum + m.l_n_states.getD t1 0) * m.l_n_states.sum ≤ m.l_n_states.sum * m.l_n_states.sum :=
        Nat.mul_le_mul_right _ hp2
      rw [Nat.add_mul] at hB
      omega
  · intro t1 ht1 t2 ht2 u1 hu1 u2 hu2 hne k
    rcases Nat.lt_trichotomy t1 u1 with hlt | heq1 | hgt
    · exact ranges_disjoint_of_le
        (startIdxTT_ordered m (by omega) (by omega) (by omega) (by omega) hw' (Or.inr hlt)) k
    · subst heq1
      rcases Nat.lt_trichotomy t2 u2 with hlt2 | heq2 | hgt2
      · exact ranges_disjoint_of_le
          (startIdxTT_ordered m (by omega) (by omega) (by omega) (by omega) hw'
            (Or.inl ⟨rfl, hlt2⟩)) k
      · exact absurd (by rw [heq2]) hne
      · intro hcon
        exact ranges_disjoint_of_le
          (startIdxTT_ordered m (by omega) (by omega) (by omega) (by omega) hw'
            (Or.inl ⟨rfl, hgt2⟩)) k ⟨hcon.2.2.1, hcon.2.2.2, hcon.1, hcon.2.1⟩
    · intro hcon
      exact ranges_disjoint_of_le
        (startIdxTT_ordered m (by omega) (by omega) (by omega) (by omega) hw' (Or.inr hgt)) k
        ⟨hcon.2.2.1, hcon.2.2.2, hcon.1, hcon.2.1⟩

/-- Counterexample to C7 as stated: with `states_per_type = [70000, 1]` the
running offset of the pair `(0, 1)` is `70000 * 70000 ≥ 2 ^ 32`, so the
`np.uint32` matrix stores it wrapped — the stored offset differs from the
row-major preceding-pairs sum, and the reserved ranges no longer tile
`[0, total_edge_states)`. -/
theorem claim_C7_counterexample :
    (TypedCRF.l_n_states ⟨2, [70000, 1], [1, 1], [[1], [1]]⟩).length =
      TypedCRF.n_types ⟨2, [70000, 1], [1, 1], [[1], [1]]⟩ ∧
    2 ^ 32 ≤ TypedCRF.totalEdgeStates ⟨2, [70000, 1], [1, 1], [[1], [1]]⟩ ∧
    TypedCRF.startIdxTT ⟨2, [70000, 1], [1, 1], [[1], [1]]⟩ 0 1 =
      70000 * 70000 % 2 ^ 32 ∧
    TypedCRF.startIdxTT ⟨2, [70000, 1], [1, 1], [[1], [1]]⟩ 0 1 ≠
      rowMajorPrior [70000, 1] 0 1 :=
  ⟨by decide, by decide, by decide, by decide⟩

/-- Witness for C7 on the two-type schema with `states_per_type = [2, 3]`
(`total_edge_states = 25 < 2 ^ 32`): the offset of the pair `(1, 1)` matches
the row-major preceding sum, and a point of `[0, 25)` lies in exactly the
range of one pair. -/
theorem claim_C7_witness :
    TypedCRF.totalEdgeStates ⟨2, [2, 3], [1, 1], [[1, 1], [1, 1, 1]]⟩ < 2 ^ 32 ∧
    TypedCRF.startIdxTT ⟨2, [2, 3], [1, 1], [[1, 1], [1, 1, 1]]⟩ 1 1 =
      rowMajorPrior [2, 3] 1 1 ∧
    ((12 : ℕ) < TypedCRF.totalEdgeStates ⟨2, [2, 3], [1, 1], [[1, 1], [1, 1, 1]]⟩ ↔
      ∃ t1 < 2, ∃ t2 < 2,
        TypedCRF.startIdxTT ⟨2, [2, 3], [1, 1], [[1, 1], [1, 1, 1]]⟩ t1 t2 ≤ 12 ∧
        12 < TypedCRF.startIdxTT ⟨2, [2, 3], [1, 1], [[1, 1], [1, 1, 1]]⟩ t1 t2 +
          List.getD [2, 3] t1 0 * List.getD [2, 3] t2 0) := by
  have h := claim_C7 ⟨2, [2, 3], [1, 1], [[1, 1], [1, 1, 1]]⟩ (by decide) (by decide)
  exact ⟨by decide, h.1 1 (by decide) 1 (by decide), h.2.1 12⟩

end TypedCrf
